import Mathlib

/-!
github-tool: listing an organization's repositories and cloning them.

A shallow embedding of `main.go`.  The program talks to three outside parties:
the GitHub listing endpoint, the git clone layer and the standard library's URL
parser and path joiner.  They are the fields of `World`; everything the program
does to them is recorded, in order, in the `trace` of the `State` it threads.
-/

namespace GithubTool

/-! ## Data -/

/-- Go `error` values; `none : Option Error` is the nil error. -/
abbrev Error := String

/-- A parsed `*url.URL`. -/
structure URL where
  raw : String
  deriving DecidableEq, Repr

/-- An outgoing `*http.Request`, as far as a proxy function can see it. -/
structure Request where
  url : String
  deriving DecidableEq, Repr

/-- The value of `http.Transport.Proxy`: a `func(*Request) (*url.URL, error)`.
The only such function the program builds is `http.ProxyURL(u)`. -/
inductive ProxyFunc where
  | fixed (u : URL)
  deriving DecidableEq, Repr

/-- Modelled from the spec: `http.ProxyURL` belongs to the standard library and is
not under src/; the proxy-resolution function it returns "returns the parsed proxy
URL for arbitrary request URLs". -/
def ProxyURL (u : URL) : ProxyFunc := .fixed u

/-- Calling a proxy function on a request: the proxy URL and the error. -/
def ProxyFunc.resolve : ProxyFunc → Request → Option URL × Option Error
  | .fixed u, _ => (some u, none)

/-- The `http.Transport` literal of `newHttpClient`. -/
structure HttpTransport where
  Proxy : Option ProxyFunc
  deriving DecidableEq, Repr

/-- A `*http.Client`; `addr` is the identity of the allocated object. -/
structure HttpClient where
  addr : Nat
  Transport : HttpTransport
  deriving DecidableEq, Repr

/-- The value of `github.NewClient(httpClient)`: the API client, holding the
`*http.Client` it was given (nil when it was given nil). -/
structure GithubClient where
  httpClient : Option HttpClient
  deriving DecidableEq, Repr

/-- The value of `ghttp.NewClient(httpClient)`: a git transport, holding the
`*http.Client` it was given (nil when it was given nil). -/
structure GitTransport where
  httpClient : Option HttpClient
  deriving DecidableEq, Repr

/-- The struct `Options`. -/
structure Options where
  proxy : String
  org : String
  path : String
  username : String
  password : String
  gitClient : Option GithubClient
  deriving DecidableEq, Repr

/-- The fields of `github.Repository` the program reads; each is a `*string`. -/
structure Repository where
  Name : Option String
  CloneURL : Option String
  URL : Option String
  deriving DecidableEq, Repr

/-- The struct `github.ListOptions`. -/
structure ListOptions where
  Page : Int
  PerPage : Int
  deriving DecidableEq, Repr

/-- The struct `github.RepositoryListByOrgOptions`; `Type_` is its field `Type`. -/
structure RepositoryListByOrgOptions where
  Type_ : String
  ListOptions : ListOptions
  deriving DecidableEq, Repr

/-- The field of `github.Response` the program reads. -/
structure Response where
  NextPage : Int
  deriving DecidableEq, Repr

/-- What `Repositories.ListByOrg` returns: `repos, resp, err`. -/
structure ListResult where
  repos : List Repository
  resp : Option Response
  err : Option Error
  deriving DecidableEq, Repr

/-- The struct `ghttp.BasicAuth`. -/
structure BasicAuth where
  Username : String
  Password : String
  deriving DecidableEq, Repr

/-- An `io.Writer` for clone progress. -/
inductive Writer where
  | Stdout
  deriving DecidableEq, Repr

/-- The constant `git.DefaultSubmoduleRecursionDepth`. -/
def DefaultSubmoduleRecursionDepth : Nat := 10

/-- The fields of `git.CloneOptions` the program sets. -/
structure CloneOptions where
  URL : String
  RecurseSubmodules : Nat
  Progress : Option Writer
  Auth : Option BasicAuth
  deriving DecidableEq, Repr

/-- One line written through the `log` package. -/
inductive LogLine where
  | proxyAddress (proxy : String)
  | beginClone (name url : String)
  | cloneErr (err : Error)
  | error (err : Error)
  | options (o : Options)
  deriving DecidableEq, Repr

/-- One observable action of the program. -/
inductive Event where
  | log (l : LogLine)
  | newHttpClient (c : HttpClient)
  | listByOrg (c : GithubClient) (org : String) (ops : RepositoryListByOrgOptions)
      (res : ListResult)
  | installProtocol (scheme : String) (t : GitTransport)
  | plainClone (path : String) (isBare : Bool) (o : CloneOptions) (err : Option Error)
  | exit (code : Nat)
  deriving DecidableEq, Repr

/-- The outside parties.  `σ` is their hidden state (the network, the disk). -/
structure World (σ : Type) where
  /-- The function `url.Parse`. -/
  urlParse : String → Except Error URL
  /-- The function `filepath.Join` on two elements. -/
  filepathJoin : String → String → String
  /-- The method `Repositories.ListByOrg` of the API client. -/
  listByOrg : σ → GithubClient → String → RepositoryListByOrgOptions → ListResult × σ
  /-- The function `git.PlainClone`, run with the installed transports; its error. -/
  plainClone : σ → List (String × GitTransport) → String → Bool → CloneOptions →
    Option Error × σ

/-- The state the program runs in. -/
structure State (σ : Type) where
  /-- The hidden state of the outside parties. -/
  world : σ
  /-- The number of `http.Client` objects allocated so far. -/
  heap : Nat
  /-- The table `client.Protocols` of the git layer, latest entry first. -/
  protocols : List (String × GitTransport)
  /-- Everything done so far, oldest first. -/
  trace : List Event

/-- How a call ends: it returns, it panics on a nil pointer, or the model's step
budget for the listing loop ends before the loop does. -/
inductive Outcome (α : Type) where
  | returned (a : α)
  | panicked
  | outOfFuel
  deriving DecidableEq, Repr

/-- Append one event to the trace. -/
def State.emit {σ : Type} (s : State σ) (e : Event) : State σ :=
  { s with trace := s.trace ++ [e] }

/-! ## The program -/

/-- The method `newHttpClient`. -/
def newHttpClient {σ : Type} (W : World σ) (options : Options) (s : State σ) :
    (Option HttpClient × Option Error) × State σ :=
  if options.proxy ≠ "" then
    match W.urlParse options.proxy with
    | .error err => ((none, some err), s.emit (.log (.error err)))
    | .ok u =>
      let tr : HttpTransport := { Proxy := some (ProxyURL u) }
      let httpClient : HttpClient := { addr := s.heap, Transport := tr }
      ((some httpClient, none),
        { s with heap := s.heap + 1, trace := s.trace ++ [.newHttpClient httpClient] })
  else ((none, none), s)

/-- The function `client.InstallProtocol` of the git library: from now on the
transport `t` serves the scheme. -/
def InstallProtocol {σ : Type} (scheme : String) (t : GitTransport) (s : State σ) :
    State σ :=
  { s with protocols := (scheme, t) :: s.protocols,
           trace := s.trace ++ [.installProtocol scheme t] }

/-- The method `setGitProxy`. -/
def setGitProxy {σ : Type} (W : World σ) (options : Options) (s : State σ) :
    Option Error × State σ :=
  match newHttpClient W options s with
  | ((_, some err), s1) => (some err, s1)
  | ((httpClient, none), s1) =>
    let s2 := InstallProtocol "https" { httpClient := httpClient } s1
    let s3 := InstallProtocol "http" { httpClient := httpClient } s2
    (none, s3)

/-- The method `newGithubClient`; it returns the error and the updated options. -/
def newGithubClient {σ : Type} (W : World σ) (options : Options) (s : State σ) :
    (Option Error × Options) × State σ :=
  match newHttpClient W options s with
  | ((_, some err), s1) => ((some err, options), s1)
  | ((httpClient, none), s1) =>
    ((none, { options with gitClient := some { httpClient := httpClient } }), s1)

/-- The loop of `listReposByOrg`, for at most `fuel` iterations. -/
def listLoop {σ : Type} (W : World σ) (gitClient : GithubClient) (org : String) :
    Nat → RepositoryListByOrgOptions → List Repository → State σ →
    Outcome (List Repository × Option Error) × State σ
  | 0, _, _, s => (.outOfFuel, s)
  | fuel + 1, ops, allRepos, s =>
    let (res, w) := W.listByOrg s.world gitClient org ops
    let s1 := ({ s with world := w } : State σ).emit (.listByOrg gitClient org ops res)
    match res.err with
    | some err => (.returned (allRepos, some err), s1.emit (.log (.error err)))
    | none =>
      let allRepos := allRepos ++ res.repos
      match res.resp with
      | none => (.panicked, s1)
      | some resp =>
        if resp.NextPage = 0 then (.returned (allRepos, none), s1)
        else listLoop W gitClient org fuel
          { ops with ListOptions := { ops.ListOptions with Page := resp.NextPage } }
          allRepos s1

/-- The method `listReposByOrg`. -/
def listReposByOrg {σ : Type} (W : World σ) (fuel : Nat) (options : Options)
    (s : State σ) : Outcome (List Repository × Option Error) × State σ :=
  let allRepos : List Repository := []
  let ops : RepositoryListByOrgOptions :=
    { Type_ := "all", ListOptions := { Page := 0, PerPage := 100 } }
  match options.gitClient with
  | none => (.panicked, s)
  | some gitClient => listLoop W gitClient options.org fuel ops allRepos s

/-- The `for _, repo := range repos` loop of `cloneReposByOrg`. -/
def cloneLoop {σ : Type} (W : World σ) (options : Options) :
    List Repository → State σ → Outcome Unit × State σ
  | [], s => (.returned (), s)
  | repo :: rest, s =>
    match repo.Name, repo.URL with
    | some name, some url =>
      let s1 := s.emit (.log (.beginClone name url))
      match repo.CloneURL with
      | none => (.panicked, s1)
      | some cloneURL =>
        let path := W.filepathJoin options.path name
        let o : CloneOptions :=
          { URL := cloneURL,
            RecurseSubmodules := DefaultSubmoduleRecursionDepth,
            Progress := some .Stdout,
            Auth := some { Username := options.username, Password := options.password } }
        let (err, w) := W.plainClone s1.world s1.protocols path false o
        let s2 := ({ s1 with world := w } : State σ).emit (.plainClone path false o err)
        let s3 := match err with
          | some e => s2.emit (.log (.cloneErr e))
          | none => s2
        cloneLoop W options rest s3
    | _, _ => (.panicked, s)

/-- The function `cloneReposByOrg`. -/
def cloneReposByOrg {σ : Type} (W : World σ) (fuel : Nat) (options : Options)
    (s : State σ) : Outcome (Option Error) × State σ :=
  if options.org = "" then (.returned (some "must have one org"), s)
  else if options.gitClient = none then (.returned (some "not have client"), s)
  else
    match listReposByOrg W fuel options s with
    | (.panicked, s1) => (.panicked, s1)
    | (.outOfFuel, s1) => (.outOfFuel, s1)
    | (.returned (_, some err), s1) => (.returned (some err), s1)
    | (.returned (repos, none), s1) =>
      match setGitProxy W options s1 with
      | (some err, s2) => (.returned (some err), s2)
      | (none, s2) =>
        match cloneLoop W options repos s2 with
        | (.panicked, s3) => (.panicked, s3)
        | (.outOfFuel, s3) => (.outOfFuel, s3)
        | (.returned (), s3) => (.returned none, s3.emit (.log (.options options)))

/-- The values of the command line flags, defaults filled in. -/
structure Flags where
  proxy : String
  org : String
  path : String
  username : String
  password : String
  deriving DecidableEq, Repr

/-- The `&Options{}` of `main` once the flags are bound to it. -/
def Flags.toOptions (f : Flags) : Options :=
  { proxy := f.proxy, org := f.org, path := f.path, username := f.username,
    password := f.password, gitClient := none }

/-- The `PersistentPreRunE` of `newRootCmd`. -/
def persistentPreRunE {σ : Type} (W : World σ) (options : Options) (s : State σ) :
    (Option Error × Options) × State σ :=
  newGithubClient W options (s.emit (.log (.proxyAddress options.proxy)))

/-- One run of `main` for the command `github clone`: the command framework runs
`PersistentPreRunE`, then, when that returned no error, `RunE`; `main` logs the
error returned and exits with 1.  The result is the exit code. -/
def execute {σ : Type} (W : World σ) (fuel : Nat) (f : Flags) (s : State σ) :
    Outcome Nat × State σ :=
  match persistentPreRunE W f.toOptions s with
  | ((some err, _), s1) => (.returned 1, (s1.emit (.log (.error err))).emit (.exit 1))
  | ((none, options), s1) =>
    match cloneReposByOrg W fuel options s1 with
    | (.panicked, s2) => (.panicked, s2)
    | (.outOfFuel, s2) => (.outOfFuel, s2)
    | (.returned (some err), s2) =>
      (.returned 1, (s2.emit (.log (.error err))).emit (.exit 1))
    | (.returned none, s2) => (.returned 0, s2.emit (.exit 0))

/-! ## Vocabulary of the statements -/

/-- The listing request for page number `p`: type "all", 100 records a page. -/
def opsAt (p : Int) : RepositoryListByOrgOptions :=
  { Type_ := "all", ListOptions := { Page := p, PerPage := 100 } }

/-- The page number the lister's `i`-th request carries (counting from 0) when the
pages are numbered 1, 2, ...: none (0) for the first, the page's number after. -/
def requestPage (i : Nat) : Int := if i = 0 then 0 else (i : Int) + 1

/-- The successful response carrying page `i + 1` of `batches`: its batch, and as
next page `i + 2`, or 0 when it is the last page. -/
def pageResult (batches : List (List Repository)) (i : Nat) : ListResult :=
  { repos := batches.getD i [],
    resp := some { NextPage := if i + 1 < batches.length then (i : Int) + 2 else 0 },
    err := none }

/-- The endpoint serves `batches` as the pages 1..N of `org`, in every state: a
request for page `i + 1` is answered with that page, and so is, for the first
page, a request that leaves the page number unset (0). -/
def ServesPages {σ : Type} (W : World σ) (c : GithubClient) (org : String)
    (batches : List (List Repository)) : Prop :=
  ∀ (w : σ) (i : Nat), i < batches.length →
    ∀ p : Int, (p = (i : Int) + 1 ∨ (i = 0 ∧ p = 0)) →
      (W.listByOrg w c org (opsAt p)).1 = pageResult batches i

/-- The listing calls the lister makes for `batches`, each with its response. -/
def pageCalls (c : GithubClient) (org : String) (batches : List (List Repository)) :
    List Event :=
  (List.range batches.length).map fun i =>
    Event.listByOrg c org (opsAt (requestPage i)) (pageResult batches i)

/-- The successful response carrying page `i + 1` of `batches` and naming page
`i + 2` as next. -/
def moreResult (batches : List (List Repository)) (i : Nat) : ListResult :=
  { repos := batches.getD i [], resp := some { NextPage := (i : Int) + 2 }, err := none }

/-- The endpoint serves `batches` as the pages 1..K-1 of `org`, each naming a next
page, and fails every request for page K with the error `e`; a request that leaves
the page number unset (0) is a request for page 1. -/
def ServesThenFails {σ : Type} (W : World σ) (c : GithubClient) (org : String)
    (batches : List (List Repository)) (e : Error) : Prop :=
  (∀ (w : σ) (i : Nat), i < batches.length →
    ∀ p : Int, (p = (i : Int) + 1 ∨ (i = 0 ∧ p = 0)) →
      (W.listByOrg w c org (opsAt p)).1 = moreResult batches i) ∧
  (∀ (w : σ) (p : Int),
    (p = (batches.length : Int) + 1 ∨ (batches.length = 0 ∧ p = 0)) →
      (W.listByOrg w c org (opsAt p)).1.err = some e)

/-- The listing calls for the pages that were served before the failure. -/
def moreCalls (c : GithubClient) (org : String) (batches : List (List Repository)) :
    List Event :=
  (List.range batches.length).map fun i =>
    Event.listByOrg c org (opsAt (requestPage i)) (moreResult batches i)

/-- The listing call an event is, when it is one: the request and its result. -/
def Event.asListCall : Event → Option (RepositoryListByOrgOptions × ListResult)
  | .listByOrg _ _ ops res => some (ops, res)
  | _ => none

/-- The listing calls of a trace, each request with its result, oldest first. -/
def listCalls (evs : List Event) : List (RepositoryListByOrgOptions × ListResult) :=
  evs.filterMap Event.asListCall

/-- The listing requests of a trace, oldest first. -/
def listRequests (evs : List Event) : List RepositoryListByOrgOptions :=
  (listCalls evs).map Prod.fst

/-- The API client a listing call went through, when the event is a listing call. -/
def Event.asListClient : Event → Option GithubClient
  | .listByOrg c _ _ _ => some c
  | _ => none

/-- The API clients of the listing calls of a trace, oldest first. -/
def listClients (evs : List Event) : List GithubClient :=
  evs.filterMap Event.asListClient

/-- The clone attempt an event is, when it is one: destination, bareness, options. -/
def Event.asClone : Event → Option (String × Bool × CloneOptions)
  | .plainClone path isBare o _ => some (path, isBare, o)
  | _ => none

/-- The clone attempts of a trace, oldest first. -/
def cloneAttempts (evs : List Event) : List (String × Bool × CloneOptions) :=
  evs.filterMap Event.asClone

/-- The error a clone attempt returned, when the event is a clone attempt. -/
def Event.asCloneResult : Event → Option (Option Error)
  | .plainClone _ _ _ err => some err
  | _ => none

/-- What the clone attempts of a trace returned, oldest first. -/
def cloneResults (evs : List Event) : List (Option Error) :=
  evs.filterMap Event.asCloneResult

/-- The clone error an event logs, when it is such a log line. -/
def Event.asCloneErrLog : Event → Option Error
  | .log (.cloneErr e) => some e
  | _ => none

/-- The clone errors logged in a trace, oldest first. -/
def cloneErrLogs (evs : List Event) : List Error :=
  evs.filterMap Event.asCloneErrLog

/-- The transport installation an event is, when it is one. -/
def Event.asInstall : Event → Option (String × GitTransport)
  | .installProtocol scheme t => some (scheme, t)
  | _ => none

/-- The transport installations of a trace, oldest first. -/
def installs (evs : List Event) : List (String × GitTransport) :=
  evs.filterMap Event.asInstall

/-- The client an event constructs, when it is a construction. -/
def Event.asConstruction : Event → Option HttpClient
  | .newHttpClient c => some c
  | _ => none

/-- The HTTP clients constructed in a trace, oldest first. -/
def constructions (evs : List Event) : List HttpClient :=
  evs.filterMap Event.asConstruction

/-- The calls ask for page `p` first, and each later call asks for exactly the
page that the response before it named as next, a response without error whose
next page is not 0; every request has type "all" and page size 100. -/
def chained : Int → List (RepositoryListByOrgOptions × ListResult) → Bool
  | _, [] => true
  | p, (ops, res) :: rest =>
    ops == opsAt p &&
      (rest.isEmpty ||
        (res.err.isNone &&
          match res.resp with
          | some resp => resp.NextPage != 0 && chained resp.NextPage rest
          | none => false))

/-- The record carries a name, a URL and a clone URL. -/
def Repository.populated (r : Repository) : Bool :=
  r.Name.isSome && r.URL.isSome && r.CloneURL.isSome

/-- The clone attempt `cloneReposByOrg` makes for a populated record: into the
configured path joined with the record's name, not bare, from the record's clone
URL, with the configured user name and password. -/
def cloneCall {σ : Type} (W : World σ) (options : Options) (r : Repository) :
    String × Bool × CloneOptions :=
  (W.filepathJoin options.path (r.Name.getD ""), false,
    { URL := r.CloneURL.getD "",
      RecurseSubmodules := DefaultSubmoduleRecursionDepth,
      Progress := some .Stdout,
      Auth := some { Username := options.username, Password := options.password } })

/-- The proxy string makes `newHttpClient` fail: it is not empty and does not parse. -/
def proxyFails {σ : Type} (W : World σ) (options : Options) : Prop :=
  options.proxy ≠ "" ∧ ∃ e, W.urlParse options.proxy = .error e

/-- The transport of the client resolves the proxy of every request to `u`. -/
def HttpClient.proxiesThrough (c : HttpClient) (u : URL) : Prop :=
  ∃ pf : ProxyFunc, c.Transport.Proxy = some pf ∧
    ∀ req : Request, pf.resolve req = (some u, none)

/-! ## A small world for the examples -/

/-- A repository record of the examples. -/
def repoA : Repository :=
  { Name := some "alpha", CloneURL := some "https://github.com/acme/alpha.git",
    URL := some "https://api.github.com/repos/acme/alpha" }

/-- A repository record of the examples. -/
def repoB : Repository :=
  { Name := some "beta", CloneURL := some "https://github.com/acme/beta.git",
    URL := some "https://api.github.com/repos/acme/beta" }

/-- A repository record of the examples. -/
def repoC : Repository :=
  { Name := some "gamma", CloneURL := some "https://github.com/acme/gamma.git",
    URL := some "https://api.github.com/repos/acme/gamma" }

/-- A repository record of the examples that carries no name. -/
def repoNameless : Repository :=
  { Name := none, CloneURL := some "https://github.com/ghost/beta.git",
    URL := some "https://api.github.com/repos/ghost/beta" }

/-- The listing endpoint of the examples.  The organization "acme" has two pages,
`[repoA, repoB]` then `[repoC]`; "flaky" has a first page `[repoA]` and fails on
page 2; "ghost" has one page whose second record carries no name; every other
request fails.  A request without a page number gets page 1. -/
def demoListByOrg (org : String) (ops : RepositoryListByOrgOptions) : ListResult :=
  if org = "acme" then
    if ops.ListOptions.Page = 0 ∨ ops.ListOptions.Page = 1 then
      { repos := [repoA, repoB], resp := some { NextPage := 2 }, err := none }
    else if ops.ListOptions.Page = 2 then
      { repos := [repoC], resp := some { NextPage := 0 }, err := none }
    else { repos := [], resp := none, err := some "404 Not Found" }
  else if org = "flaky" then
    if ops.ListOptions.Page = 0 ∨ ops.ListOptions.Page = 1 then
      { repos := [repoA], resp := some { NextPage := 2 }, err := none }
    else { repos := [], resp := none, err := some "502 Bad Gateway" }
  else if org = "ghost" then
    if ops.ListOptions.Page = 0 ∨ ops.ListOptions.Page = 1 then
      { repos := [repoA, repoNameless, repoC], resp := some { NextPage := 0 }, err := none }
    else { repos := [], resp := none, err := some "404 Not Found" }
  else { repos := [], resp := none, err := some "404 Not Found" }

/-- The world of the examples.  Its state counts the clone attempts made so far;
the attempt with number `i` fails when `fails i`.  The proxy string "://proxy"
does not parse. -/
def demoWorld (fails : Nat → Bool) : World Nat where
  urlParse raw :=
    if raw = "://proxy" then .error "missing protocol scheme" else .ok { raw := raw }
  filepathJoin dir name := dir ++ "/" ++ name
  listByOrg w _ org ops := (demoListByOrg org ops, w)
  plainClone w _ _ _ _ := (if fails w then some "clone failed" else none, w + 1)

/-- The state the examples start in. -/
def demoState : State Nat := { world := 0, heap := 0, protocols := [], trace := [] }

/-- Options of the examples: organization "acme", a client, no proxy. -/
def demoOptions : Options :=
  { proxy := "", org := "acme", path := "repos", username := "user", password := "secret",
    gitClient := some { httpClient := none } }

/-- The world of the examples in which no clone attempt fails. -/
def calmWorld : World Nat := demoWorld fun _ => false

/-- The world of the examples in which the clone attempts 0 and 2 fail. -/
def roughWorld : World Nat := demoWorld fun i => i == 0 || i == 2

/-- The two pages of the organization "acme". -/
def acmePages : List (List Repository) := [[repoA, repoB], [repoC]]

/-- Options of the examples: organization "flaky", a client, no proxy. -/
def flakyOptions : Options := { demoOptions with org := "flaky" }

/-- Options of the examples: organization "ghost", a client, no proxy. -/
def ghostOptions : Options := { demoOptions with org := "ghost" }

/-- Options of the examples: a client is set, and a proxy string that does not parse. -/
def badProxyOptions : Options := { demoOptions with proxy := "://proxy" }

/-- Flags of the examples: organization "acme" through a proxy. -/
def proxyFlags : Flags :=
  { proxy := "http://127.0.0.1:8080", org := "acme", path := "repos", username := "user",
    password := "secret" }

/-- Flags of the examples: a proxy string that does not parse. -/
def badProxyFlags : Flags := { proxyFlags with proxy := "://proxy" }

/-- The transport `newHttpClient` builds for `proxyFlags`. -/
def proxyTransport : HttpTransport :=
  { Proxy := some (ProxyURL { raw := "http://127.0.0.1:8080" }) }

/-! ## Lemmas on the listing loop -/

theorem listCalls_append (xs ys : List Event) :
    listCalls (xs ++ ys) = listCalls xs ++ listCalls ys := by
  simp [listCalls]

theorem listRequests_append (xs ys : List Event) :
    listRequests (xs ++ ys) = listRequests xs ++ listRequests ys := by
  simp [listRequests, listCalls_append]

theorem listRequests_map_listByOrg {α : Type} (xs : List α) (c : GithubClient)
    (org : String) (f : α → RepositoryListByOrgOptions) (g : α → ListResult) :
    listRequests (xs.map fun i => Event.listByOrg c org (f i) (g i)) = xs.map f := by
  induction xs with
  | nil => rfl
  | cons x xs ih =>
    simp only [listRequests, listCalls] at ih
    simp only [listRequests, listCalls, List.map_cons, List.filterMap_cons,
      Event.asListCall, ih]

/-- One successful iteration that names a next page. -/
theorem listLoop_step {σ : Type} (W : World σ) (c : GithubClient) (org : String)
    (fuel : Nat) (ops : RepositoryListByOrgOptions) (acc : List Repository)
    (s : State σ) (b : List Repository) (next : Int) (hnext : next ≠ 0)
    (h : (W.listByOrg s.world c org ops).1 = { repos := b, resp := some ⟨next⟩, err := none }) :
    listLoop W c org (fuel + 1) ops acc s =
      listLoop W c org fuel
        { ops with ListOptions := { ops.ListOptions with Page := next } } (acc ++ b)
        (({ s with world := (W.listByOrg s.world c org ops).2 } : State σ).emit
          (.listByOrg c org ops { repos := b, resp := some ⟨next⟩, err := none })) := by
  rw [listLoop]
  simp only [h, hnext, if_false]

/-- The last successful iteration: the response names no next page. -/
theorem listLoop_last {σ : Type} (W : World σ) (c : GithubClient) (org : String)
    (fuel : Nat) (ops : RepositoryListByOrgOptions) (acc : List Repository)
    (s : State σ) (b : List Repository)
    (h : (W.listByOrg s.world c org ops).1 = { repos := b, resp := some ⟨0⟩, err := none }) :
    listLoop W c org (fuel + 1) ops acc s =
      (.returned (acc ++ b, none),
        ({ s with world := (W.listByOrg s.world c org ops).2 } : State σ).emit
          (.listByOrg c org ops { repos := b, resp := some ⟨0⟩, err := none })) := by
  rw [listLoop]
  simp only [h, if_true]

/-- An iteration whose request fails. -/
theorem listLoop_fail {σ : Type} (W : World σ) (c : GithubClient) (org : String)
    (fuel : Nat) (ops : RepositoryListByOrgOptions) (acc : List Repository)
    (s : State σ) (e : Error)
    (h : (W.listByOrg s.world c org ops).1.err = some e) :
    listLoop W c org (fuel + 1) ops acc s =
      (.returned (acc, some e),
        ((({ s with world := (W.listByOrg s.world c org ops).2 } : State σ).emit
          (.listByOrg c org ops (W.listByOrg s.world c org ops).1)).emit
            (.log (.error e)))) := by
  rw [listLoop]
  simp only [h]

/-- The loop from page `k + 1` on, against an endpoint that serves `batches`: it
returns what it had plus the remaining pages and makes one call a page. -/
theorem listLoop_pages {σ : Type} (W : World σ) (c : GithubClient) (org : String)
    (batches : List (List Repository)) (hserve : ServesPages W c org batches) :
    ∀ (m k : Nat) (p : Int) (fuel : Nat) (acc : List Repository) (s : State σ),
      k + (m + 1) = batches.length → (p = (k : Int) + 1 ∨ (k = 0 ∧ p = 0)) →
      m + 1 ≤ fuel →
      (listLoop W c org fuel (opsAt p) acc s).1
          = .returned (acc ++ (batches.drop k).flatten, none) ∧
      (listLoop W c org fuel (opsAt p) acc s).2.trace
          = s.trace ++ Event.listByOrg c org (opsAt p) (pageResult batches k) ::
              (List.range' (k + 1) m).map fun i : Nat =>
                Event.listByOrg c org (opsAt ((i : Int) + 1)) (pageResult batches i) := by
  intro m
  induction m with
  | zero =>
    intro k p fuel acc s hk hp hfuel
    obtain ⟨fuel, rfl⟩ : ∃ f, fuel = f + 1 := ⟨fuel - 1, by omega⟩
    have hlt : k < batches.length := by omega
    have h := hserve s.world k hlt p hp
    have hlast : pageResult batches k
        = { repos := batches.getD k [], resp := some ⟨0⟩, err := none } := by
      simp [pageResult]; omega
    rw [hlast] at h
    rw [listLoop_last W c org fuel (opsAt p) acc s _ h]
    have hdrop : batches.drop k = [batches.getD k []] := by
      rw [List.drop_eq_getElem_cons hlt, List.drop_of_length_le (by omega),
        List.getD_eq_getElem _ _ hlt]
    simp [hdrop, hlast, State.emit]
  | succ m ih =>
    intro k p fuel acc s hk hp hfuel
    obtain ⟨fuel, rfl⟩ : ∃ f, fuel = f + 1 := ⟨fuel - 1, by omega⟩
    have hlt : k < batches.length := by omega
    have h := hserve s.world k hlt p hp
    have hstep : pageResult batches k
        = { repos := batches.getD k [], resp := some ⟨(k : Int) + 2⟩, err := none } := by
      have : k + 1 < batches.length := by omega
      simp [pageResult, this]
    rw [hstep] at h
    rw [listLoop_step W c org fuel (opsAt p) acc s _ _ (by omega) h]
    have hops : ({ opsAt p with ListOptions :=
        { (opsAt p).ListOptions with Page := (k : Int) + 2 } } : RepositoryListByOrgOptions)
        = opsAt (((k + 1 : Nat) : Int) + 1) := by
      simp [opsAt]; ring
    rw [hops]
    obtain ⟨h1, h2⟩ := ih (k + 1) (((k + 1 : Nat) : Int) + 1) fuel
      (acc ++ batches.getD k [])
      (({ s with world := (W.listByOrg s.world c org (opsAt p)).2 } : State σ).emit
        (.listByOrg c org (opsAt p)
          { repos := batches.getD k [], resp := some ⟨(k : Int) + 2⟩, err := none }))
      (by omega) (Or.inl rfl) (by omega)
    refine ⟨?_, ?_⟩
    · rw [h1, List.drop_eq_getElem_cons hlt, List.getD_eq_getElem _ _ hlt,
        List.flatten_cons, List.append_assoc]
    · rw [h2, hstep]
      simp [State.emit, List.range'_succ]

/-- Claim C1. Against an endpoint that serves an organization's repositories as
N >= 1 pages (page i names page i + 1 as next, page N names 0, no request fails),
`listReposByOrg` returns a nil error and the concatenation of the N batches in
page order; it makes exactly N listing calls, one a page in page order (the first
with page number 0, see `requestPage`), and the last thing it does is the call
whose response named next page 0. -/
theorem listReposByOrg_all_pages {σ : Type} (W : World σ) (fuel : Nat)
    (options : Options) (s : State σ) (c : GithubClient)
    (batches : List (List Repository))
    (hclient : options.gitClient = some c)
    (hN : 1 ≤ batches.length)
    (hserve : ServesPages W c options.org batches)
    (hfuel : batches.length ≤ fuel) :
    (listReposByOrg W fuel options s).1 = .returned (batches.flatten, none) ∧
    (listReposByOrg W fuel options s).2.trace
      = s.trace ++ pageCalls c options.org batches ∧
    listRequests (listReposByOrg W fuel options s).2.trace
      = listRequests s.trace ++
          (List.range batches.length).map (fun i => opsAt (requestPage i)) ∧
    (listReposByOrg W fuel options s).2.trace.getLast?
      = some (Event.listByOrg c options.org (opsAt (requestPage (batches.length - 1)))
          { repos := batches.getD (batches.length - 1) [], resp := some ⟨0⟩,
            err := none }) := by
  obtain ⟨m, hm⟩ : ∃ m, batches.length = m + 1 := ⟨batches.length - 1, by omega⟩
  obtain ⟨h1, h2⟩ := listLoop_pages W c options.org batches hserve m 0 0 fuel [] s
    (by omega) (Or.inr ⟨rfl, rfl⟩) (by omega)
  have hcalls : pageCalls c options.org batches
      = Event.listByOrg c options.org (opsAt 0) (pageResult batches 0) ::
          (List.range' (0 + 1) m).map fun i : Nat =>
            Event.listByOrg c options.org (opsAt ((i : Int) + 1)) (pageResult batches i) := by
    unfold pageCalls
    rw [hm, List.range_eq_range', List.range'_succ, List.map_cons]
    refine congrArg₂ _ (by simp [requestPage]) (List.map_congr_left ?_)
    intro i hi
    have : i ≠ 0 := by
      have := (List.mem_range'_1.mp hi).1
      omega
    simp [requestPage, this]
  have hrun : listReposByOrg W fuel options s
      = listLoop W c options.org fuel (opsAt 0) [] s := by
    simp [listReposByOrg, hclient, opsAt]
  refine ⟨?_, ?_, ?_, ?_⟩
  · rw [hrun, h1]; simp
  · rw [hrun, h2, hcalls]
  · rw [hrun, h2, ← hcalls, listRequests_append, pageCalls, listRequests_map_listByOrg]
  · rw [hrun, h2, ← hcalls]
    have hne : pageCalls c options.org batches ≠ [] := by
      rw [hcalls]
      exact List.cons_ne_nil _ _
    rw [List.getLast?_append_of_ne_nil _ hne]
    simp [pageCalls, hm, List.range_succ, pageResult]

/-- The loop from page `k + 1` on, against an endpoint that fails after the pages
of `batches`. -/
theorem listLoop_fails {σ : Type} (W : World σ) (c : GithubClient) (org : String)
    (batches : List (List Repository)) (e : Error)
    (hserve : ServesThenFails W c org batches e) :
    ∀ (m k : Nat) (p : Int) (fuel : Nat) (acc : List Repository) (s : State σ),
      k + m = batches.length → (p = (k : Int) + 1 ∨ (k = 0 ∧ p = 0)) →
      m + 1 ≤ fuel →
      (listLoop W c org fuel (opsAt p) acc s).1
          = .returned (acc ++ (batches.drop k).flatten, some e) ∧
      ∃ res : ListResult, res.err = some e ∧
        (listLoop W c org fuel (opsAt p) acc s).2.trace
          = s.trace ++ ((List.range' k m).map fun i : Nat =>
                Event.listByOrg c org (opsAt (if i = k then p else (i : Int) + 1))
                  (moreResult batches i)) ++
              [Event.listByOrg c org
                  (opsAt (if m = 0 then p else (batches.length : Int) + 1)) res,
                Event.log (.error e)] := by
  intro m
  induction m with
  | zero =>
    intro k p fuel acc s hk hp hfuel
    obtain ⟨fuel, rfl⟩ : ∃ f, fuel = f + 1 := ⟨fuel - 1, by omega⟩
    have hk0 : k = batches.length := by omega
    have h := hserve.2 s.world p (by
      rcases hp with hp | ⟨hk1, hp⟩
      · exact Or.inl (by rw [hp, hk0])
      · exact Or.inr ⟨by omega, hp⟩)
    rw [listLoop_fail W c org fuel (opsAt p) acc s e h]
    refine ⟨?_, (W.listByOrg s.world c org (opsAt p)).1, h, ?_⟩
    · rw [List.drop_of_length_le (by omega)]; simp
    · simp [State.emit]
  | succ m ih =>
    intro k p fuel acc s hk hp hfuel
    obtain ⟨fuel, rfl⟩ : ∃ f, fuel = f + 1 := ⟨fuel - 1, by omega⟩
    have hlt : k < batches.length := by omega
    have h := hserve.1 s.world k hlt p hp
    rw [moreResult] at h
    rw [listLoop_step W c org fuel (opsAt p) acc s _ _ (by omega) h]
    have hops : ({ opsAt p with ListOptions :=
        { (opsAt p).ListOptions with Page := (k : Int) + 2 } } : RepositoryListByOrgOptions)
        = opsAt (((k + 1 : Nat) : Int) + 1) := by
      simp [opsAt]; ring
    rw [hops]
    obtain ⟨h1, res, hres, h2⟩ := ih (k + 1) (((k + 1 : Nat) : Int) + 1) fuel
      (acc ++ batches.getD k [])
      (({ s with world := (W.listByOrg s.world c org (opsAt p)).2 } : State σ).emit
        (.listByOrg c org (opsAt p)
          { repos := batches.getD k [], resp := some ⟨(k : Int) + 2⟩, err := none }))
      (by omega) (Or.inl rfl) (by omega)
    refine ⟨?_, res, hres, ?_⟩
    · rw [h1, List.drop_eq_getElem_cons hlt, List.getD_eq_getElem _ _ hlt,
        List.flatten_cons, List.append_assoc]
    · rw [h2, List.range'_succ, List.map_cons]
      have hrest : ((List.range' (k + 1) m).map fun i : Nat =>
            Event.listByOrg c org
              (opsAt (if i = k + 1 then ((k + 1 : Nat) : Int) + 1 else (i : Int) + 1))
              (moreResult batches i))
          = (List.range' (k + 1) m).map fun i : Nat =>
            Event.listByOrg c org (opsAt (if i = k then p else (i : Int) + 1))
              (moreResult batches i) := by
        refine List.map_congr_left ?_
        intro i hi
        have hik : i ≠ k := by
          have := (List.mem_range'_1.mp hi).1
          omega
        by_cases hi1 : i = k + 1
        · subst hi1; simp
        · simp [hi1, hik]
      have hlast : (if m = 0 then ((k + 1 : Nat) : Int) + 1 else (batches.length : Int) + 1)
          = (batches.length : Int) + 1 := by
        by_cases hm : m = 0
        · subst hm
          have : batches.length = k + 1 := by omega
          simp [this]
        · simp [hm]
      rw [hrest, hlast]
      simp [State.emit, moreResult]

/-- Claim C2. For every K >= 1 (K - 1 is the number of pages in `batches`): against
an endpoint whose requests for the pages 1..K-1 succeed, each naming a next page,
and whose request for page K fails with `e`, `listReposByOrg` returns the error
`e` together with exactly the concatenation of the batches of pages 1..K-1; it
makes K listing calls, and after the failed one it only logs the error. -/
theorem listReposByOrg_fails_on_page {σ : Type} (W : World σ) (fuel : Nat)
    (options : Options) (s : State σ) (c : GithubClient)
    (batches : List (List Repository)) (e : Error)
    (hclient : options.gitClient = some c)
    (hserve : ServesThenFails W c options.org batches e)
    (hfuel : batches.length + 1 ≤ fuel) :
    (listReposByOrg W fuel options s).1 = .returned (batches.flatten, some e) ∧
    ∃ res : ListResult, res.err = some e ∧
      (listReposByOrg W fuel options s).2.trace
        = s.trace ++ moreCalls c options.org batches ++
            [Event.listByOrg c options.org (opsAt (requestPage batches.length)) res,
              Event.log (.error e)] ∧
      listRequests (listReposByOrg W fuel options s).2.trace
        = listRequests s.trace ++
            (List.range (batches.length + 1)).map (fun i => opsAt (requestPage i)) := by
  obtain ⟨h1, res, hres, h2⟩ := listLoop_fails W c options.org batches e hserve
    batches.length 0 0 fuel [] s (by omega) (Or.inr ⟨rfl, rfl⟩) hfuel
  have hrun : listReposByOrg W fuel options s
      = listLoop W c options.org fuel (opsAt 0) [] s := by
    simp [listReposByOrg, hclient, opsAt]
  have htrace : (listReposByOrg W fuel options s).2.trace
      = s.trace ++ moreCalls c options.org batches ++
          [Event.listByOrg c options.org (opsAt (requestPage batches.length)) res,
            Event.log (.error e)] := by
    rw [hrun, h2, moreCalls, List.range_eq_range']
    rfl
  refine ⟨?_, res, hres, htrace, ?_⟩
  · rw [hrun, h1]; simp
  · rw [htrace, listRequests_append, listRequests_append, moreCalls,
      listRequests_map_listByOrg, List.range_succ, List.map_append, List.append_assoc]
    simp [listRequests, listCalls, Event.asListCall]

theorem listLoop_chained {σ : Type} (W : World σ) (c : GithubClient) (org : String) :
    ∀ (fuel : Nat) (p : Int) (acc : List Repository) (s : State σ),
      ∃ evs : List Event,
        (listLoop W c org fuel (opsAt p) acc s).2.trace = s.trace ++ evs ∧
        chained p (listCalls evs) = true := by
  intro fuel
  induction fuel with
  | zero => intro p acc s; exact ⟨[], by simp [listLoop], rfl⟩
  | succ fuel ih =>
    intro p acc s
    rw [listLoop]
    generalize W.listByOrg s.world c org (opsAt p) = r
    obtain ⟨⟨repos, resp, err⟩, w⟩ := r
    cases err with
    | some e =>
      exact ⟨[.listByOrg c org (opsAt p) ⟨repos, resp, some e⟩, .log (.error e)],
        by simp [State.emit], by simp [listCalls, Event.asListCall, chained]⟩
    | none =>
      cases resp with
      | none =>
        exact ⟨[.listByOrg c org (opsAt p) ⟨repos, none, none⟩],
          by simp [State.emit], by simp [listCalls, Event.asListCall, chained]⟩
      | some resp =>
        by_cases h0 : resp.NextPage = 0
        · exact ⟨[.listByOrg c org (opsAt p) ⟨repos, some resp, none⟩],
            by simp [State.emit, h0], by simp [listCalls, Event.asListCall, chained]⟩
        · obtain ⟨evs, h1, h2⟩ := ih resp.NextPage (acc ++ repos)
            (({ s with world := w } : State σ).emit
              (.listByOrg c org (opsAt p) ⟨repos, some resp, none⟩))
          refine ⟨.listByOrg c org (opsAt p) ⟨repos, some resp, none⟩ :: evs, ?_, ?_⟩
          · simp only [h0, if_false]
            have hops : ({ opsAt p with ListOptions :=
                { (opsAt p).ListOptions with Page := resp.NextPage } } :
                  RepositoryListByOrgOptions) = opsAt resp.NextPage := rfl
            rw [hops, h1]
            simp [State.emit]
          · simp only [listCalls] at h2
            simp [listCalls, Event.asListCall, chained, h0, h2]

/-- The listing loop, given a step to run, starts with a listing call. -/
theorem listLoop_head {σ : Type} (W : World σ) (c : GithubClient) (org : String) :
    ∀ (fuel : Nat) (ops : RepositoryListByOrgOptions) (acc : List Repository)
      (s : State σ),
      ∃ (res : ListResult) (evs : List Event),
        (listLoop W c org (fuel + 1) ops acc s).2.trace
          = s.trace ++ Event.listByOrg c org ops res :: evs := by
  intro fuel
  induction fuel with
  | zero =>
    intro ops acc s
    rw [listLoop]
    generalize W.listByOrg s.world c org ops = r
    obtain ⟨⟨repos, resp, err⟩, w⟩ := r
    cases err with
    | some e => exact ⟨⟨repos, resp, some e⟩, [.log (.error e)], by simp [State.emit]⟩
    | none =>
      cases resp with
      | none => exact ⟨⟨repos, none, none⟩, [], by simp [State.emit]⟩
      | some resp =>
        by_cases h0 : resp.NextPage = 0
        · exact ⟨⟨repos, some resp, none⟩, [], by simp [State.emit, h0]⟩
        · exact ⟨⟨repos, some resp, none⟩, [], by simp [State.emit, h0, listLoop]⟩
  | succ fuel ih =>
    intro ops acc s
    rw [listLoop]
    generalize W.listByOrg s.world c org ops = r
    obtain ⟨⟨repos, resp, err⟩, w⟩ := r
    cases err with
    | some e => exact ⟨⟨repos, resp, some e⟩, [.log (.error e)], by simp [State.emit]⟩
    | none =>
      cases resp with
      | none => exact ⟨⟨repos, none, none⟩, [], by simp [State.emit]⟩
      | some resp =>
        by_cases h0 : resp.NextPage = 0
        · exact ⟨⟨repos, some resp, none⟩, [], by simp [State.emit, h0]⟩
        · simp only [h0, if_false]
          obtain ⟨res, evs, h3⟩ := ih
            { ops with ListOptions := { ops.ListOptions with Page := resp.NextPage } }
            (acc ++ repos)
            (({ s with world := w } : State σ).emit
              (.listByOrg c org ops ⟨repos, some resp, none⟩))
          exact ⟨⟨repos, some resp, none⟩,
            Event.listByOrg c org
              { ops with ListOptions := { ops.ListOptions with Page := resp.NextPage } }
              res :: evs,
            by rw [h3]; simp [State.emit]⟩

/-- Claim C7, as the code has it. In every run of `listReposByOrg`, the listing
requests it makes start with the request for page number 0 (no page number set),
every request has type "all" and page size 100, and each request after the first
asks for exactly the page number that the response before it gave as its
next-page indicator.  With an API client and a step to run there is a first
request, and it is the one for page number 0. -/
theorem listReposByOrg_requests_chained {σ : Type} (W : World σ) (fuel : Nat)
    (options : Options) (s : State σ) :
    ∃ evs : List Event,
      (listReposByOrg W fuel options s).2.trace = s.trace ++ evs ∧
      chained 0 (listCalls evs) = true ∧
      ((options.gitClient ≠ none ∧ 0 < fuel) → (listRequests evs).head? = some (opsAt 0)) := by
  unfold listReposByOrg
  cases options.gitClient with
  | none => exact ⟨[], by simp, rfl, by simp⟩
  | some c =>
    obtain ⟨evs, h1, h2⟩ := listLoop_chained W c options.org fuel 0 [] s
    refine ⟨evs, h1, h2, ?_⟩
    rintro ⟨_, hfuel⟩
    obtain ⟨n, rfl⟩ : ∃ n, fuel = n + 1 := ⟨fuel - 1, by omega⟩
    obtain ⟨res, rest, h3⟩ := listLoop_head W c options.org n (opsAt 0) [] s
    rw [h1] at h3
    rw [List.append_cancel_left h3]
    simp [listRequests, listCalls, Event.asListCall]

/-! ## What each part of the program does to the state -/

theorem newHttpClient_no_proxy {σ : Type} (W : World σ) (options : Options)
    (s : State σ) (h : options.proxy = "") :
    newHttpClient W options s = ((none, none), s) := by
  simp [newHttpClient, h]

theorem newHttpClient_parse_error {σ : Type} (W : World σ) (options : Options)
    (s : State σ) (e : Error) (hne : options.proxy ≠ "")
    (h : W.urlParse options.proxy = .error e) :
    newHttpClient W options s = ((none, some e), s.emit (.log (.error e))) := by
  simp [newHttpClient, hne, h]

theorem newHttpClient_parse_ok {σ : Type} (W : World σ) (options : Options)
    (s : State σ) (u : URL) (hne : options.proxy ≠ "")
    (h : W.urlParse options.proxy = .ok u) :
    newHttpClient W options s =
      ((some { addr := s.heap, Transport := { Proxy := some (ProxyURL u) } }, none),
        { s with heap := s.heap + 1,
                 trace := s.trace ++ [.newHttpClient
                   { addr := s.heap, Transport := { Proxy := some (ProxyURL u) } }] }) := by
  simp [newHttpClient, hne, h]

/-- The listing loop leaves the heap and the transports alone, and adds to the
trace only listing calls through its client and log lines. -/
theorem listLoop_frame {σ : Type} (W : World σ) (c : GithubClient) (org : String) :
    ∀ (fuel : Nat) (ops : RepositoryListByOrgOptions) (acc : List Repository)
      (s : State σ),
      (listLoop W c org fuel ops acc s).2.heap = s.heap ∧
      (listLoop W c org fuel ops acc s).2.protocols = s.protocols ∧
      ∃ evs : List Event,
        (listLoop W c org fuel ops acc s).2.trace = s.trace ++ evs ∧
        cloneAttempts evs = [] ∧ installs evs = [] ∧ constructions evs = [] ∧
        ∀ g ∈ listClients evs, g = c := by
  intro fuel
  induction fuel with
  | zero =>
    intro ops acc s
    exact ⟨rfl, rfl, [], by simp [listLoop], rfl, rfl, rfl, by simp [listClients]⟩
  | succ fuel ih =>
    intro ops acc s
    rw [listLoop]
    generalize W.listByOrg s.world c org ops = r
    obtain ⟨⟨repos, resp, err⟩, w⟩ := r
    cases err with
    | some e =>
      exact ⟨rfl, rfl, [.listByOrg c org ops ⟨repos, resp, some e⟩, .log (.error e)],
        by simp [State.emit],
        by simp [cloneAttempts, Event.asClone], by simp [installs, Event.asInstall],
        by simp [constructions, Event.asConstruction],
        by simp [listClients, Event.asListClient]⟩
    | none =>
      cases resp with
      | none =>
        exact ⟨rfl, rfl, [.listByOrg c org ops ⟨repos, none, none⟩],
          by simp [State.emit],
          by simp [cloneAttempts, Event.asClone], by simp [installs, Event.asInstall],
          by simp [constructions, Event.asConstruction],
          by simp [listClients, Event.asListClient]⟩
      | some resp =>
        by_cases h0 : resp.NextPage = 0
        · exact ⟨by simp [h0, State.emit], by simp [h0, State.emit],
            [.listByOrg c org ops ⟨repos, some resp, none⟩],
            by simp [State.emit, h0],
            by simp [cloneAttempts, Event.asClone], by simp [installs, Event.asInstall],
            by simp [constructions, Event.asConstruction],
            by simp [listClients, Event.asListClient]⟩
        · simp only [h0, if_false]
          obtain ⟨h1, h2, evs, h3, h4, h5, h6, h7⟩ := ih
            { ops with ListOptions := { ops.ListOptions with Page := resp.NextPage } }
            (acc ++ repos)
            (({ s with world := w } : State σ).emit
              (.listByOrg c org ops ⟨repos, some resp, none⟩))
          refine ⟨by rw [h1]; rfl, by rw [h2]; rfl,
            .listByOrg c org ops ⟨repos, some resp, none⟩ :: evs, ?_, ?_, ?_, ?_, ?_⟩
          · rw [h3]; simp [State.emit]
          · simpa [cloneAttempts, Event.asClone] using h4
          · simpa [installs, Event.asInstall] using h5
          · simpa [constructions, Event.asConstruction] using h6
          · intro g hg
            simp only [listClients, List.filterMap_cons, Event.asListClient,
              List.mem_cons] at hg
            rcases hg with hg | hg
            · exact hg
            · exact h7 g hg

/-- The method `listReposByOrg` leaves the heap and the transports alone, and adds
to the trace only listing calls through the configured client and log lines. -/
theorem listReposByOrg_frame {σ : Type} (W : World σ) (fuel : Nat) (options : Options)
    (s : State σ) :
    (listReposByOrg W fuel options s).2.heap = s.heap ∧
    (listReposByOrg W fuel options s).2.protocols = s.protocols ∧
    ∃ evs : List Event,
      (listReposByOrg W fuel options s).2.trace = s.trace ++ evs ∧
      cloneAttempts evs = [] ∧ installs evs = [] ∧ constructions evs = [] ∧
      ∀ g ∈ listClients evs, some g = options.gitClient := by
  unfold listReposByOrg
  cases hc : options.gitClient with
  | none => exact ⟨rfl, rfl, [], by simp, rfl, rfl, rfl, by simp [listClients]⟩
  | some c =>
    obtain ⟨h1, h2, evs, h3, h4, h5, h6, h7⟩ := listLoop_frame W c options.org fuel
      { Type_ := "all", ListOptions := { Page := 0, PerPage := 100 } } [] s
    exact ⟨h1, h2, evs, h3, h4, h5, h6, fun g hg => by rw [h7 g hg]⟩

/-- One iteration of the clone loop on a record that has all three fields. -/
theorem cloneLoop_cons {σ : Type} (W : World σ) (options : Options)
    (name cloneURL url : String) (rest : List Repository) (s : State σ) :
    cloneLoop W options (⟨some name, some cloneURL, some url⟩ :: rest) s =
      cloneLoop W options rest
        (match (W.plainClone s.world s.protocols (W.filepathJoin options.path name) false
            (cloneCall W options ⟨some name, some cloneURL, some url⟩).2.2).1 with
          | some e =>
            (({ s.emit (.log (.beginClone name url)) with
                world := (W.plainClone s.world s.protocols
                  (W.filepathJoin options.path name) false
                  (cloneCall W options ⟨some name, some cloneURL, some url⟩).2.2).2 } :
                State σ).emit
              (.plainClone (W.filepathJoin options.path name) false
                (cloneCall W options ⟨some name, some cloneURL, some url⟩).2.2 (some e))).emit
              (.log (.cloneErr e))
          | none =>
            ({ s.emit (.log (.beginClone name url)) with
                world := (W.plainClone s.world s.protocols
                  (W.filepathJoin options.path name) false
                  (cloneCall W options ⟨some name, some cloneURL, some url⟩).2.2).2 } :
                State σ).emit
              (.plainClone (W.filepathJoin options.path name) false
                (cloneCall W options ⟨some name, some cloneURL, some url⟩).2.2 none)) := by
  rw [cloneLoop]
  simp only [State.emit, cloneCall, Option.getD_some]
  cases (W.plainClone s.world s.protocols (W.filepathJoin options.path name) false
    { URL := cloneURL, RecurseSubmodules := DefaultSubmoduleRecursionDepth,
      Progress := some .Stdout,
      Auth := some { Username := options.username, Password := options.password } }).1 <;> rfl

/-- The clone loop: it attempts the records of the list one after the other, in
list order, each as `cloneCall` says, whatever the attempts before returned; it
stops only at a record that lacks a name, a URL or a clone URL (a nil pointer),
so the attempts are those for the longest prefix of populated records;
it logs the error of each failed attempt and does nothing else. -/
theorem cloneLoop_spec {σ : Type} (W : World σ) (options : Options) :
    ∀ (repos : List Repository) (s : State σ),
      (cloneLoop W options repos s).2.heap = s.heap ∧
      (cloneLoop W options repos s).2.protocols = s.protocols ∧
      (cloneLoop W options repos s).1 ≠ .outOfFuel ∧
      ∃ evs : List Event,
        (cloneLoop W options repos s).2.trace = s.trace ++ evs ∧
        cloneAttempts evs
          = (repos.takeWhile Repository.populated).map (cloneCall W options) ∧
        listCalls evs = [] ∧ installs evs = [] ∧ constructions evs = [] ∧
        cloneErrLogs evs = (cloneResults evs).filterMap id ∧
        ((∀ r ∈ repos, r.populated = true) →
          (cloneLoop W options repos s).1 = .returned ()) := by
  intro repos
  induction repos with
  | nil =>
    intro s
    exact ⟨rfl, rfl, by simp [cloneLoop], [], by simp [cloneLoop], rfl, rfl,
      rfl, rfl, rfl, fun _ => rfl⟩
  | cons repo rest ih =>
    intro s
    obtain ⟨name, cloneURL, url⟩ := repo
    have hstop : ∀ (r : Repository) (s1 : State σ) (evs : List Event),
        r.populated = false → s1.heap = s.heap → s1.protocols = s.protocols →
        s1.trace = s.trace ++ evs → cloneAttempts evs = [] → listCalls evs = [] →
        installs evs = [] → constructions evs = [] → cloneErrLogs evs = [] →
        cloneResults evs = [] →
        s1.heap = s.heap ∧ s1.protocols = s.protocols ∧
        (Outcome.panicked : Outcome Unit) ≠ .outOfFuel ∧
        ∃ evs : List Event,
          s1.trace = s.trace ++ evs ∧
          cloneAttempts evs
            = ((r :: rest).takeWhile Repository.populated).map (cloneCall W options) ∧
          listCalls evs = [] ∧ installs evs = [] ∧ constructions evs = [] ∧
          cloneErrLogs evs = (cloneResults evs).filterMap id ∧
          ((∀ x ∈ r :: rest, x.populated = true) →
            (Outcome.panicked : Outcome Unit) = .returned ()) := by
      intro r s1 evs hr hh hp ht h1 h2 h3 h4 h5 h6
      refine ⟨hh, hp, by simp, evs, ht, by simp [List.takeWhile_cons, hr, h1], h2, h3, h4,
        by rw [h5, h6]; rfl, ?_⟩
      intro hall
      have := hall r (List.mem_cons_self _ _)
      rw [hr] at this
      exact absurd this (by simp)
    cases name with
    | none =>
      simpa [cloneLoop] using hstop ⟨none, cloneURL, url⟩ s [] (by simp [Repository.populated])
        rfl rfl (by simp) rfl rfl rfl rfl rfl rfl
    | some name =>
      cases url with
      | none =>
        simpa [cloneLoop] using hstop ⟨some name, cloneURL, none⟩ s []
          (by simp [Repository.populated]) rfl rfl (by simp) rfl rfl rfl rfl rfl rfl
      | some url =>
        cases cloneURL with
        | none =>
          simpa [cloneLoop] using hstop ⟨some name, none, some url⟩
            (s.emit (.log (.beginClone name url))) [.log (.beginClone name url)]
            (by simp [Repository.populated]) rfl rfl (by simp [State.emit])
            (by simp [cloneAttempts, Event.asClone])
            (by simp [listCalls, Event.asListCall])
            (by simp [installs, Event.asInstall])
            (by simp [constructions, Event.asConstruction])
            (by simp [cloneErrLogs, Event.asCloneErrLog])
            (by simp [cloneResults, Event.asCloneResult])
        | some cloneURL =>
          rw [cloneLoop_cons]
          generalize W.plainClone s.world s.protocols (W.filepathJoin options.path name) false
            (cloneCall W options ⟨some name, some cloneURL, some url⟩).2.2 = r
          obtain ⟨err, w⟩ := r
          cases err with
          | none =>
            obtain ⟨h1, h2, h3, evs, h4, h6, h7, h8, h9, h10, h11⟩ := ih
              (({ s.emit (.log (.beginClone name url)) with world := w } : State σ).emit
                (.plainClone (W.filepathJoin options.path name) false
                  (cloneCall W options ⟨some name, some cloneURL, some url⟩).2.2 none))
            refine ⟨by rw [h1]; rfl, by rw [h2]; rfl, h3,
              .log (.beginClone name url) ::
                .plainClone (W.filepathJoin options.path name) false
                  (cloneCall W options ⟨some name, some cloneURL, some url⟩).2.2 none :: evs,
              ?_, ?_, ?_, ?_, ?_, ?_, ?_⟩
            · rw [h4]; simp [State.emit]
            · simp only [cloneAttempts] at h6
              simp [cloneAttempts, Event.asClone, h6, cloneCall, List.takeWhile_cons,
                Repository.populated]
            · simpa [listCalls, Event.asListCall] using h7
            · simpa [installs, Event.asInstall] using h8
            · simpa [constructions, Event.asConstruction] using h9
            · simp only [cloneErrLogs, cloneResults] at h10
              simp [cloneErrLogs, cloneResults, Event.asCloneErrLog, Event.asCloneResult, h10]
            · intro hall
              exact h11 (fun x hx => hall x (List.mem_cons_of_mem _ hx))
          | some e =>
            obtain ⟨h1, h2, h3, evs, h4, h6, h7, h8, h9, h10, h11⟩ := ih
              ((({ s.emit (.log (.beginClone name url)) with world := w } : State σ).emit
                (.plainClone (W.filepathJoin options.path name) false
                  (cloneCall W options ⟨some name, some cloneURL, some url⟩).2.2
                  (some e))).emit
                (.log (.cloneErr e)))
            refine ⟨by rw [h1]; rfl, by rw [h2]; rfl, h3,
              .log (.beginClone name url) ::
                .plainClone (W.filepathJoin options.path name) false
                  (cloneCall W options ⟨some name, some cloneURL, some url⟩).2.2 (some e) ::
                .log (.cloneErr e) :: evs,
              ?_, ?_, ?_, ?_, ?_, ?_, ?_⟩
            · rw [h4]; simp [State.emit]
            · simp only [cloneAttempts] at h6
              simp [cloneAttempts, Event.asClone, h6, cloneCall, List.takeWhile_cons,
                Repository.populated]
            · simpa [listCalls, Event.asListCall] using h7
            · simpa [installs, Event.asInstall] using h8
            · simpa [constructions, Event.asConstruction] using h9
            · simp only [cloneErrLogs, cloneResults] at h10
              simp [cloneErrLogs, cloneResults, Event.asCloneErrLog, Event.asCloneResult, h10]
            · intro hall
              exact h11 (fun x hx => hall x (List.mem_cons_of_mem _ hx))

/-! ## Client construction -/

/-- The three ways `newHttpClient` ends. -/
theorem newHttpClient_cases {σ : Type} (W : World σ) (options : Options) (s : State σ) :
    (options.proxy = "" ∧ newHttpClient W options s = ((none, none), s)) ∨
    (∃ e, options.proxy ≠ "" ∧ W.urlParse options.proxy = .error e ∧
      newHttpClient W options s = ((none, some e), s.emit (.log (.error e)))) ∨
    (∃ u, options.proxy ≠ "" ∧ W.urlParse options.proxy = .ok u ∧
      newHttpClient W options s =
        ((some { addr := s.heap, Transport := { Proxy := some (ProxyURL u) } }, none),
          { s with heap := s.heap + 1,
                   trace := s.trace ++ [.newHttpClient
                     { addr := s.heap, Transport := { Proxy := some (ProxyURL u) } }] })) := by
  by_cases hp : options.proxy = ""
  · exact Or.inl ⟨hp, newHttpClient_no_proxy W options s hp⟩
  · cases hu : W.urlParse options.proxy with
    | error e => exact Or.inr (Or.inl ⟨e, hp, rfl, newHttpClient_parse_error W options s e hp hu⟩)
    | ok u => exact Or.inr (Or.inr ⟨u, hp, rfl, newHttpClient_parse_ok W options s u hp hu⟩)

/-- When `setGitProxy` returns an error, the proxy string failed to parse. -/
theorem setGitProxy_error {σ : Type} (W : World σ) (options : Options) (s : State σ)
    (e : Error) (h : (setGitProxy W options s).1 = some e) : proxyFails W options := by
  rcases newHttpClient_cases W options s with ⟨_, h1⟩ | ⟨e1, hne, hu, _⟩ | ⟨u, _, _, h1⟩
  · simp [setGitProxy, h1] at h
  · exact ⟨hne, e1, hu⟩
  · simp [setGitProxy, h1] at h

/-- When the proxy string fails to parse, `setGitProxy` returns the parse error,
logs it and installs nothing. -/
theorem setGitProxy_of_proxyFails {σ : Type} (W : World σ) (options : Options)
    (s : State σ) (h : proxyFails W options) :
    ∃ e, W.urlParse options.proxy = .error e ∧
      setGitProxy W options s = (some e, s.emit (.log (.error e))) := by
  obtain ⟨hne, e, hu⟩ := h
  exact ⟨e, hu, by simp [setGitProxy, newHttpClient_parse_error W options s e hne hu]⟩

/-- When the proxy string is empty or parses, `setGitProxy` returns nil: it has
built at most one client and installed it for "https", then for "http". -/
theorem setGitProxy_ok {σ : Type} (W : World σ) (options : Options) (s : State σ)
    (h : ¬ proxyFails W options) :
    ∃ hc : Option HttpClient,
      (setGitProxy W options s).1 = none ∧
      (setGitProxy W options s).2.world = s.world ∧
      (setGitProxy W options s).2.protocols
        = ("http", { httpClient := hc }) :: ("https", { httpClient := hc }) :: s.protocols ∧
      (setGitProxy W options s).2.trace
        = s.trace ++ hc.toList.map Event.newHttpClient ++
            [.installProtocol "https" { httpClient := hc },
              .installProtocol "http" { httpClient := hc }] ∧
      (options.proxy = "" → hc = none ∧ (setGitProxy W options s).2.heap = s.heap) ∧
      (options.proxy ≠ "" → ∃ u, W.urlParse options.proxy = .ok u ∧
        hc = some { addr := s.heap, Transport := { Proxy := some (ProxyURL u) } } ∧
        (setGitProxy W options s).2.heap = s.heap + 1) := by
  rcases newHttpClient_cases W options s with ⟨hp, h1⟩ | ⟨e1, hne, hu, _⟩ | ⟨u, hne, hu, h1⟩
  · exact ⟨none, by simp [setGitProxy, h1], by simp [setGitProxy, h1, InstallProtocol],
      by simp [setGitProxy, h1, InstallProtocol],
      by simp [setGitProxy, h1, InstallProtocol],
      fun _ => ⟨rfl, by simp [setGitProxy, h1, InstallProtocol]⟩,
      fun hne => absurd hp hne⟩
  · exact absurd ⟨hne, e1, hu⟩ h
  · exact ⟨some { addr := s.heap, Transport := { Proxy := some (ProxyURL u) } },
      by simp [setGitProxy, h1], by simp [setGitProxy, h1, InstallProtocol],
      by simp [setGitProxy, h1, InstallProtocol],
      by simp [setGitProxy, h1, InstallProtocol],
      fun hp => absurd hp hne,
      fun _ => ⟨u, hu, rfl, by simp [setGitProxy, h1, InstallProtocol]⟩⟩

/-- Claim C9. For every non-empty proxy string that parses as the URL `u`:
`newHttpClient` returns a client whose transport's proxy function returns `u` for
every request; `newGithubClient` gives such a client to the API client; and
`setGitProxy` installs such a client as the transport of "https" and of "http". -/
theorem valid_proxy_is_used {σ : Type} (W : World σ) (options : Options) (s : State σ)
    (u : URL) (hne : options.proxy ≠ "") (hok : W.urlParse options.proxy = .ok u) :
    (∃ c : HttpClient, (newHttpClient W options s).1 = (some c, none) ∧
        c.proxiesThrough u) ∧
    (∃ c : HttpClient,
        (newGithubClient W options s).1
          = (none, { options with gitClient := some { httpClient := some c } }) ∧
        c.proxiesThrough u) ∧
    (∃ c : HttpClient, (setGitProxy W options s).1 = none ∧
        (setGitProxy W options s).2.protocols.lookup "https"
          = some { httpClient := some c } ∧
        (setGitProxy W options s).2.protocols.lookup "http"
          = some { httpClient := some c } ∧
        c.proxiesThrough u) := by
  have h1 := newHttpClient_parse_ok W options s u hne hok
  have hp : (HttpClient.mk s.heap { Proxy := some (ProxyURL u) }).proxiesThrough u :=
    ⟨ProxyURL u, rfl, fun _ => rfl⟩
  refine ⟨⟨_, by rw [h1], hp⟩, ⟨_, by simp [newGithubClient, h1], hp⟩, ⟨_, ?_, ?_, ?_, hp⟩⟩
  · simp [setGitProxy, h1]
  · simp [setGitProxy, h1, InstallProtocol, List.lookup]
  · simp [setGitProxy, h1, InstallProtocol, List.lookup]

/-- Without an organization name `cloneReposByOrg` returns at its first check. -/
theorem cloneReposByOrg_org_empty {σ : Type} (W : World σ) (fuel : Nat)
    (options : Options) (s : State σ) (horg : options.org = "") :
    cloneReposByOrg W fuel options s = (.returned (some "must have one org"), s) := by
  simp [cloneReposByOrg, horg]

/-- Claim C10. With an empty organization name `cloneReposByOrg` returns the error
"must have one org" at once and leaves the state as it was, whatever the other
fields are: no listing request, no transport installed, no clone attempt. -/
theorem cloneReposByOrg_no_org {σ : Type} (W : World σ) (fuel : Nat) (options : Options)
    (s : State σ) (horg : options.org = "") :
    cloneReposByOrg W fuel options s = (.returned (some "must have one org"), s) ∧
    (cloneReposByOrg W fuel options s).2.trace = s.trace ∧
    (cloneReposByOrg W fuel options s).2.protocols = s.protocols ∧
    (cloneReposByOrg W fuel options s).2.world = s.world := by
  have h := cloneReposByOrg_org_empty W fuel options s horg
  simp [h]

/-- Without an API client `cloneReposByOrg` returns an error and does nothing. -/
theorem cloneReposByOrg_no_client {σ : Type} (W : World σ) (fuel : Nat)
    (options : Options) (s : State σ) (hc : options.gitClient = none) :
    ∃ e, cloneReposByOrg W fuel options s = (.returned (some e), s) := by
  by_cases horg : options.org = ""
  · exact ⟨"must have one org", by simp [cloneReposByOrg, horg]⟩
  · exact ⟨"not have client", by simp [cloneReposByOrg, horg, hc]⟩

/-! ## The clone command -/

theorem cloneResults_length (evs : List Event) :
    (cloneResults evs).length = (cloneAttempts evs).length := by
  induction evs with
  | nil => rfl
  | cons e es ih =>
    simp only [cloneResults, cloneAttempts] at ih
    cases e <;>
      simp [cloneResults, cloneAttempts, Event.asCloneResult, Event.asClone, ih]

theorem cloneAttempts_constructions (hc : Option HttpClient) :
    cloneAttempts (hc.toList.map Event.newHttpClient) = [] := by
  cases hc <;> simp [cloneAttempts, Event.asClone]

/-- A listing that returned went through an API client. -/
theorem listReposByOrg_returned_client {σ : Type} (W : World σ) (fuel : Nat)
    (options : Options) (s : State σ) (x : List Repository × Option Error)
    (h : (listReposByOrg W fuel options s).1 = .returned x) :
    options.gitClient ≠ none := by
  intro hc
  simp [listReposByOrg, hc] at h

/-- The clone phase of `cloneReposByOrg`, reached when the organization is named,
the listing returned `repos` without error and the proxy string is usable: one
call of `newHttpClient`, the two installations, the clone loop, and, unless a
record without a name, a URL or a clone URL stopped the loop, the final log line
and a nil error. -/
theorem cloneReposByOrg_clone_phase {σ : Type} (W : World σ) (fuel : Nat)
    (options : Options) (s s1 : State σ) (repos : List Repository)
    (horg : options.org ≠ "")
    (hlist : listReposByOrg W fuel options s = (.returned (repos, none), s1))
    (hproxy : ¬ proxyFails W options) :
    ∃ (hc : Option HttpClient) (evsC tail : List Event),
      (cloneReposByOrg W fuel options s).2.trace
        = s1.trace ++ hc.toList.map Event.newHttpClient ++
            [.installProtocol "https" { httpClient := hc },
              .installProtocol "http" { httpClient := hc }] ++ evsC ++ tail ∧
      (options.proxy = "" → hc = none) ∧
      (options.proxy ≠ "" → ∃ u, W.urlParse options.proxy = .ok u ∧
        hc = some { addr := s1.heap, Transport := { Proxy := some (ProxyURL u) } }) ∧
      cloneAttempts evsC
        = (repos.takeWhile Repository.populated).map (cloneCall W options) ∧
      listCalls evsC = [] ∧ installs evsC = [] ∧ constructions evsC = [] ∧
      cloneErrLogs evsC = (cloneResults evsC).filterMap id ∧
      (((cloneReposByOrg W fuel options s).1 = .returned none ∧
          tail = [.log (.options options)]) ∨
        ((cloneReposByOrg W fuel options s).1 = .panicked ∧ tail = [] ∧
          ¬ ∀ r ∈ repos, r.populated = true)) := by
  have hclient : options.gitClient ≠ none :=
    listReposByOrg_returned_client W fuel options s (repos, none) (by rw [hlist])
  obtain ⟨hc, hs1, _, _, hs4, hs5, hs6⟩ := setGitProxy_ok W options s1 hproxy
  obtain ⟨_, _, hcl3, evsC, hcl4, hcl5, hcl6, hcl7, hcl8, hcl9, hcl10⟩ :=
    cloneLoop_spec W options repos (setGitProxy W options s1).2
  have hrun : cloneReposByOrg W fuel options s =
      match cloneLoop W options repos (setGitProxy W options s1).2 with
      | (.panicked, s3) => (.panicked, s3)
      | (.outOfFuel, s3) => (.outOfFuel, s3)
      | (.returned (), s3) => (.returned none, s3.emit (.log (.options options))) := by
    simp only [cloneReposByOrg, horg, hclient, hlist, if_false]
    rcases hsg : setGitProxy W options s1 with ⟨_ | e, s2⟩
    · rfl
    · rw [hsg] at hs1; simp at hs1
  rcases hloop : cloneLoop W options repos (setGitProxy W options s1).2 with ⟨out, s3⟩
  rw [hloop] at hcl3 hcl4 hcl10
  cases out with
  | outOfFuel => exact absurd rfl hcl3
  | panicked =>
    refine ⟨hc, evsC, [], ?_, fun hp => (hs5 hp).1, ?_, hcl5, hcl6, hcl7, hcl8, hcl9,
      Or.inr ⟨by rw [hrun, hloop], rfl, ?_⟩⟩
    · rw [hrun, hloop]
      simp only [] at hcl4 ⊢
      rw [hcl4, hs4]
      simp
    · intro hne
      obtain ⟨u, hu, hcu, _⟩ := hs6 hne
      exact ⟨u, hu, hcu⟩
    · intro hall
      have := hcl10 hall
      simp at this
  | returned u =>
    cases u
    refine ⟨hc, evsC, [.log (.options options)], ?_, fun hp => (hs5 hp).1, ?_, hcl5, hcl6,
      hcl7, hcl8, hcl9, Or.inl ⟨by rw [hrun, hloop], rfl⟩⟩
    · rw [hrun, hloop]
      simp only [State.emit] at hcl4 ⊢
      rw [hcl4, hs4]
    · intro hne
      obtain ⟨u, hu, hcu, _⟩ := hs6 hne
      exact ⟨u, hu, hcu⟩

/-- Claim C3, as the code has it. For every list `repos` that a successful listing
returned, when the proxy string is empty or parses (so that `setGitProxy`, which
runs between the listing and the clone loop, returns nil) and every record carries
a name, a URL and a clone URL, and whatever each clone attempt returns (the world
is arbitrary, so the attempts may fail at any set of positions): `cloneReposByOrg`
attempts exactly one clone for each record, in list order, never stopping early;
every failure is only logged; and the nil error is returned, so that a command run
of which this is the clone command ends with exit code 0. -/
theorem cloneReposByOrg_attempts_every_repository {σ : Type} (W : World σ)
    (fuel : Nat) (options : Options) (s s1 : State σ) (repos : List Repository)
    (horg : options.org ≠ "")
    (hlist : listReposByOrg W fuel options s = (.returned (repos, none), s1))
    (hproxy : ¬ proxyFails W options)
    (hpop : ∀ r ∈ repos, r.populated = true) :
    (cloneReposByOrg W fuel options s).1 = .returned none ∧
    (∀ (f : Flags) (s0 : State σ),
      persistentPreRunE W f.toOptions s0 = ((none, options), s) →
        (execute W fuel f s0).1 = .returned 0) ∧
    ∃ evs : List Event,
      (cloneReposByOrg W fuel options s).2.trace = s1.trace ++ evs ∧
      (cloneAttempts evs).length = repos.length ∧
      (cloneAttempts evs).map Prod.fst
        = repos.map (fun r => W.filepathJoin options.path (r.Name.getD "")) ∧
      (cloneResults evs).length = repos.length ∧
      cloneErrLogs evs = (cloneResults evs).filterMap id := by
  obtain ⟨hc, evsC, tail, h1, _, _, h4, _, _, _, h8, h9⟩ :=
    cloneReposByOrg_clone_phase W fuel options s s1 repos horg hlist hproxy
  rcases h9 with ⟨hret, htail⟩ | ⟨_, _, hnot⟩
  swap
  · exact absurd hpop hnot
  have hall : repos.takeWhile Repository.populated = repos :=
    List.takeWhile_eq_self_iff.mpr hpop
  rw [hall] at h4
  have hatt : cloneAttempts (hc.toList.map Event.newHttpClient ++
      [.installProtocol "https" { httpClient := hc },
        .installProtocol "http" { httpClient := hc }] ++ evsC ++ tail)
      = repos.map (cloneCall W options) := by
    simp only [cloneAttempts] at h4
    have := cloneAttempts_constructions hc
    simp only [cloneAttempts] at this
    simp [cloneAttempts, List.filterMap_append, this, h4, htail, Event.asClone]
  refine ⟨hret, ?_, hc.toList.map Event.newHttpClient ++
      [.installProtocol "https" { httpClient := hc },
        .installProtocol "http" { httpClient := hc }] ++ evsC ++ tail,
    by rw [h1]; simp only [List.append_assoc], ?_, ?_, ?_, ?_⟩
  · intro f s0 hpre
    rcases hcr : cloneReposByOrg W fuel options s with ⟨out, s2⟩
    rw [hcr] at hret
    simp only [] at hret
    subst hret
    simp [execute, hpre, hcr]
  · rw [hatt]; simp
  · rw [hatt]; simp [cloneCall]
  · rw [cloneResults_length, hatt]; simp
  · simp only [cloneErrLogs, cloneResults] at h8
    cases hc <;>
      simp [cloneErrLogs, cloneResults, List.filterMap_append, h8, htail,
        Event.asCloneErrLog, Event.asCloneResult]

/-- When the listing returned without error and the proxy string fails to parse,
`cloneReposByOrg` returns the parse error, having logged it after the listing. -/
theorem cloneReposByOrg_proxy_error {σ : Type} (W : World σ) (fuel : Nat)
    (options : Options) (s s1 : State σ) (repos : List Repository)
    (horg : options.org ≠ "")
    (hlist : listReposByOrg W fuel options s = (.returned (repos, none), s1))
    (hproxy : proxyFails W options) :
    ∃ e, W.urlParse options.proxy = .error e ∧
      cloneReposByOrg W fuel options s = (.returned (some e), s1.emit (.log (.error e))) := by
  have hclient : options.gitClient ≠ none :=
    listReposByOrg_returned_client W fuel options s (repos, none) (by rw [hlist])
  obtain ⟨e, hu, hsg⟩ := setGitProxy_of_proxyFails W options s1 hproxy
  exact ⟨e, hu, by simp only [cloneReposByOrg, horg, hclient, hlist, hsg, if_false]⟩

/-- Claim C8. Whenever the listing returned the list `repos`, the clone attempts of
`cloneReposByOrg` are, in list order, the attempts `cloneCall` names for a prefix
of `repos`: each goes to the configured path joined with the record's name, from
the record's clone URL, with the configured user name and password, and there is
no attempt for anything else.  The prefix is empty when the clone phase is not
reached and else ends before the first record that lacks a name, a URL or a clone
URL; once the clone phase is reached and every record is populated, it is the
whole list. -/
theorem cloneReposByOrg_clone_targets {σ : Type} (W : World σ) (fuel : Nat)
    (options : Options) (s s1 : State σ) (repos : List Repository)
    (hlist : listReposByOrg W fuel options s = (.returned (repos, none), s1)) :
    ∃ evs : List Event,
      (cloneReposByOrg W fuel options s).2.trace = s.trace ++ evs ∧
      cloneAttempts evs <+: repos.map (cloneCall W options) ∧
      (cloneAttempts evs = [] ∨
        cloneAttempts evs
          = (repos.takeWhile Repository.populated).map (cloneCall W options)) ∧
      (options.org ≠ "" → ¬ proxyFails W options → (∀ r ∈ repos, r.populated = true) →
        cloneAttempts evs = repos.map (cloneCall W options)) := by
  obtain ⟨_, _, evsL, hL, hLc, _, _, _⟩ := listReposByOrg_frame W fuel options s
  rw [hlist] at hL
  simp only [] at hL
  by_cases horg : options.org = ""
  · exact ⟨[], by simp [cloneReposByOrg_org_empty W fuel options s horg],
      List.nil_prefix, Or.inl rfl, fun h => absurd horg h⟩
  by_cases hpf : proxyFails W options
  · obtain ⟨e, _, hrun⟩ := cloneReposByOrg_proxy_error W fuel options s s1 repos horg hlist hpf
    have hnone : cloneAttempts (evsL ++ [.log (.error e)]) = [] := by
      simp only [cloneAttempts] at hLc
      simp [cloneAttempts, List.filterMap_append, hLc, Event.asClone]
    exact ⟨evsL ++ [.log (.error e)], by rw [hrun]; simp [State.emit, hL],
      by rw [hnone]; exact List.nil_prefix, Or.inl hnone, fun _ h => absurd hpf h⟩
  obtain ⟨hc, evsC, tail, h1, _, _, h4, _, _, _, _, h9⟩ :=
    cloneReposByOrg_clone_phase W fuel options s s1 repos horg hlist hpf
  have htail : cloneAttempts tail = [] := by
    rcases h9 with ⟨_, ht⟩ | ⟨_, ht, _⟩ <;> simp [ht, cloneAttempts, Event.asClone]
  have hatt : cloneAttempts (evsL ++ (hc.toList.map Event.newHttpClient ++
      [.installProtocol "https" { httpClient := hc },
        .installProtocol "http" { httpClient := hc }] ++ evsC ++ tail))
      = (repos.takeWhile Repository.populated).map (cloneCall W options) := by
    have hcon := cloneAttempts_constructions hc
    simp only [cloneAttempts] at hLc h4 htail hcon
    simp [cloneAttempts, List.filterMap_append, hLc, hcon, h4, htail, Event.asClone]
  refine ⟨evsL ++ (hc.toList.map Event.newHttpClient ++
      [.installProtocol "https" { httpClient := hc },
        .installProtocol "http" { httpClient := hc }] ++ evsC ++ tail),
    by rw [h1, hL]; simp only [List.append_assoc], ?_, Or.inr hatt, ?_⟩
  · rw [hatt]
    exact (List.takeWhile_prefix _).map _
  · intro _ _ hpop
    rw [hatt, List.takeWhile_eq_self_iff.mpr hpop]

/-- When `cloneReposByOrg` returns nil, the organization was named, the listing
had returned without error and the proxy string was usable. -/
theorem cloneReposByOrg_returned_nil {σ : Type} (W : World σ) (fuel : Nat)
    (options : Options) (s : State σ)
    (h : (cloneReposByOrg W fuel options s).1 = .returned none) :
    options.org ≠ "" ∧ ¬ proxyFails W options ∧
    ∃ (repos : List Repository) (s1 : State σ),
      listReposByOrg W fuel options s = (.returned (repos, none), s1) := by
  have horg : options.org ≠ "" := by
    intro h0
    rw [cloneReposByOrg_org_empty W fuel options s h0] at h
    simp at h
  have hclient : options.gitClient ≠ none := by
    intro h0
    obtain ⟨e, he⟩ := cloneReposByOrg_no_client W fuel options s h0
    rw [he] at h
    simp at h
  rcases hl : listReposByOrg W fuel options s with ⟨out, s1⟩
  cases out with
  | panicked =>
    have hrun : cloneReposByOrg W fuel options s = (.panicked, s1) := by
      simp only [cloneReposByOrg, horg, hclient, hl, if_false]
    rw [hrun] at h; simp at h
  | outOfFuel =>
    have hrun : cloneReposByOrg W fuel options s = (.outOfFuel, s1) := by
      simp only [cloneReposByOrg, horg, hclient, hl, if_false]
    rw [hrun] at h; simp at h
  | returned x =>
    obtain ⟨repos, oe⟩ := x
    cases oe with
    | some e =>
      have hrun : cloneReposByOrg W fuel options s = (.returned (some e), s1) := by
        simp only [cloneReposByOrg, horg, hclient, hl, if_false]
      rw [hrun] at h; simp at h
    | none =>
      refine ⟨horg, ?_, repos, s1, rfl⟩
      intro hpf
      obtain ⟨e, _, hrun⟩ :=
        cloneReposByOrg_proxy_error W fuel options s s1 repos horg hl hpf
      rw [hrun] at h; simp at h

/-- Claim C4, as the code has it. `cloneReposByOrg` returns a non-nil error if and
only if the organization name is empty, or the API client is nil, or the listing
returned an error, or the listing returned without error and the proxy string is
non-empty and fails URL parsing (the error of `setGitProxy`). -/
theorem cloneReposByOrg_error_iff {σ : Type} (W : World σ) (fuel : Nat)
    (options : Options) (s : State σ) :
    (∃ e, (cloneReposByOrg W fuel options s).1 = .returned (some e)) ↔
      (options.org = "" ∨ options.gitClient = none ∨
        (∃ repos e, (listReposByOrg W fuel options s).1 = .returned (repos, some e)) ∨
        ((∃ repos, (listReposByOrg W fuel options s).1 = .returned (repos, none)) ∧
          proxyFails W options)) := by
  by_cases horg : options.org = ""
  · exact ⟨fun _ => Or.inl horg,
      fun _ => ⟨_, by rw [cloneReposByOrg_org_empty W fuel options s horg]⟩⟩
  by_cases hclient : options.gitClient = none
  · obtain ⟨e, he⟩ := cloneReposByOrg_no_client W fuel options s hclient
    exact ⟨fun _ => Or.inr (Or.inl hclient), fun _ => ⟨e, by rw [he]⟩⟩
  rcases hl : listReposByOrg W fuel options s with ⟨out, s1⟩
  have hrest : ∀ P : Prop, (options.org = "" ∨ options.gitClient = none ∨ P) ↔ P :=
    fun P => by simp [horg, hclient]
  rw [hrest]
  cases out with
  | panicked =>
    have hrun : cloneReposByOrg W fuel options s = (.panicked, s1) := by
      simp only [cloneReposByOrg, horg, hclient, hl, if_false]
    simp [hrun]
  | outOfFuel =>
    have hrun : cloneReposByOrg W fuel options s = (.outOfFuel, s1) := by
      simp only [cloneReposByOrg, horg, hclient, hl, if_false]
    simp [hrun]
  | returned x =>
    obtain ⟨repos, oe⟩ := x
    cases oe with
    | some e =>
      have hrun : cloneReposByOrg W fuel options s = (.returned (some e), s1) := by
        simp only [cloneReposByOrg, horg, hclient, hl, if_false]
      simp [hrun]
    | none =>
      by_cases hpf : proxyFails W options
      · obtain ⟨e, _, hrun⟩ :=
          cloneReposByOrg_proxy_error W fuel options s s1 repos horg hl hpf
        simp [hrun, hpf]
      · obtain ⟨_, _, _, _, _, _, _, _, _, _, _, h9⟩ :=
          cloneReposByOrg_clone_phase W fuel options s s1 repos horg hl hpf
        rcases h9 with ⟨hret, _⟩ | ⟨hret, _, _⟩ <;> simp [hret, hpf]

/-! ## The command run -/

/-- A listing that returned has made at least one listing call. -/
theorem listReposByOrg_returned_calls {σ : Type} (W : World σ) (fuel : Nat)
    (options : Options) (s : State σ) (x : List Repository × Option Error)
    (evs : List Event)
    (h : (listReposByOrg W fuel options s).1 = .returned x)
    (ht : (listReposByOrg W fuel options s).2.trace = s.trace ++ evs) :
    listCalls evs ≠ [] := by
  cases hc : options.gitClient with
  | none => simp [listReposByOrg, hc] at h
  | some c =>
    cases fuel with
    | zero => simp [listReposByOrg, hc, listLoop] at h
    | succ fuel =>
      obtain ⟨res, evs1, h1⟩ := listLoop_head W c options.org fuel
        { Type_ := "all", ListOptions := { Page := 0, PerPage := 100 } } [] s
      have h2 : (listReposByOrg W (fuel + 1) options s).2.trace
          = s.trace ++ Event.listByOrg c options.org
              { Type_ := "all", ListOptions := { Page := 0, PerPage := 100 } } res :: evs1 := by
        simp only [listReposByOrg, hc]
        exact h1
      rw [ht] at h2
      rw [List.append_cancel_left h2]
      simp [listCalls, Event.asListCall]

/-- The two ways `newGithubClient` ends without error: it sets the API client built
on the result of `newHttpClient`, nil without a proxy, a new client with one. -/
theorem newGithubClient_ok {σ : Type} (W : World σ) (options : Options) (s : State σ)
    (h : (newGithubClient W options s).1.1 = none) :
    ∃ c1 : Option HttpClient,
      (newGithubClient W options s).1.2
        = { options with gitClient := some { httpClient := c1 } } ∧
      (newGithubClient W options s).2.world = s.world ∧
      (newGithubClient W options s).2.protocols = s.protocols ∧
      (newGithubClient W options s).2.trace = s.trace ++ c1.toList.map Event.newHttpClient ∧
      (options.proxy = "" → c1 = none ∧ (newGithubClient W options s).2.heap = s.heap) ∧
      (options.proxy ≠ "" → ∃ u, W.urlParse options.proxy = .ok u ∧
        c1 = some { addr := s.heap, Transport := { Proxy := some (ProxyURL u) } } ∧
        (newGithubClient W options s).2.heap = s.heap + 1) := by
  rcases newHttpClient_cases W options s with ⟨hp, h1⟩ | ⟨e1, hne, hu, h1⟩ | ⟨u, hne, hu, h1⟩
  · exact ⟨none, by simp [newGithubClient, h1], by simp [newGithubClient, h1],
      by simp [newGithubClient, h1], by simp [newGithubClient, h1],
      fun _ => ⟨rfl, by simp [newGithubClient, h1]⟩, fun hne => absurd hp hne⟩
  · simp [newGithubClient, h1] at h
  · exact ⟨some { addr := s.heap, Transport := { Proxy := some (ProxyURL u) } },
      by simp [newGithubClient, h1], by simp [newGithubClient, h1],
      by simp [newGithubClient, h1], by simp [newGithubClient, h1],
      fun hp => absurd hp hne,
      fun _ => ⟨u, hu, rfl, by simp [newGithubClient, h1]⟩⟩

/-- With a proxy string that fails to parse, `cloneReposByOrg` attempts no clone
and installs no transport, and without an API client it does nothing at all. -/
theorem cloneReposByOrg_bad_proxy {σ : Type} (W : World σ) (fuel : Nat)
    (options : Options) (s : State σ) (hpf : proxyFails W options) :
    ∃ evs : List Event,
      (cloneReposByOrg W fuel options s).2.trace = s.trace ++ evs ∧
      cloneAttempts evs = [] ∧ installs evs = [] ∧
      (options.gitClient = none → evs = []) := by
  by_cases horg : options.org = ""
  · exact ⟨[], by simp [cloneReposByOrg_org_empty W fuel options s horg], rfl, rfl,
      fun _ => rfl⟩
  by_cases hclient : options.gitClient = none
  · obtain ⟨e, he⟩ := cloneReposByOrg_no_client W fuel options s hclient
    exact ⟨[], by simp [he], rfl, rfl, fun _ => rfl⟩
  obtain ⟨_, _, evsL, hL, hLc, hLi, _, _⟩ := listReposByOrg_frame W fuel options s
  rcases hl : listReposByOrg W fuel options s with ⟨out, s1⟩
  rw [hl] at hL
  simp only [] at hL
  cases out with
  | panicked =>
    have hrun : cloneReposByOrg W fuel options s = (.panicked, s1) := by
      simp only [cloneReposByOrg, horg, hclient, hl, if_false]
    exact ⟨evsL, by rw [hrun]; exact hL, hLc, hLi, fun h => absurd h hclient⟩
  | outOfFuel =>
    have hrun : cloneReposByOrg W fuel options s = (.outOfFuel, s1) := by
      simp only [cloneReposByOrg, horg, hclient, hl, if_false]
    exact ⟨evsL, by rw [hrun]; exact hL, hLc, hLi, fun h => absurd h hclient⟩
  | returned x =>
    obtain ⟨repos, oe⟩ := x
    cases oe with
    | some e =>
      have hrun : cloneReposByOrg W fuel options s = (.returned (some e), s1) := by
        simp only [cloneReposByOrg, horg, hclient, hl, if_false]
      exact ⟨evsL, by rw [hrun]; exact hL, hLc, hLi, fun h => absurd h hclient⟩
    | none =>
      obtain ⟨e, _, hrun⟩ := cloneReposByOrg_proxy_error W fuel options s s1 repos horg hl hpf
      refine ⟨evsL ++ [.log (.error e)], by rw [hrun]; simp [State.emit, hL], ?_, ?_,
        fun h => absurd h hclient⟩
      · simp only [cloneAttempts] at hLc
        simp [cloneAttempts, List.filterMap_append, hLc, Event.asClone]
      · simp only [installs] at hLi
        simp [installs, List.filterMap_append, hLi, Event.asInstall]

/-- Claim C5, as the code has it. When the proxy string is non-empty and fails URL
parsing with `e`: `newHttpClient` returns `e` and no client, so `newGithubClient`
returns `e` and sets no API client, and `setGitProxy` returns `e` and installs
nothing.  On no options with this proxy string does `cloneReposByOrg` attempt a
clone or install a transport, and on those without an API client it does nothing
at all, so no listing request either.  The command run ends with exit code 1
having only logged, with no listing request and no clone attempt, and
`cloneReposByOrg`, were it run on the options that `newGithubClient` left, would
do nothing. -/
theorem bad_proxy_aborts {σ : Type} (W : World σ) (fuel : Nat) (f : Flags) (s : State σ)
    (e : Error) (hne : f.proxy ≠ "") (hbad : W.urlParse f.proxy = .error e) :
    (∀ (options : Options) (s0 : State σ), options.proxy = f.proxy →
      newHttpClient W options s0 = ((none, some e), s0.emit (.log (.error e))) ∧
      newGithubClient W options s0 = ((some e, options), s0.emit (.log (.error e))) ∧
      setGitProxy W options s0 = (some e, s0.emit (.log (.error e))) ∧
      ∃ evs : List Event,
        (cloneReposByOrg W fuel options s0).2.trace = s0.trace ++ evs ∧
        cloneAttempts evs = [] ∧ installs evs = [] ∧
        (options.gitClient = none → evs = [])) ∧
    (execute W fuel f s).1 = .returned 1 ∧
    (execute W fuel f s).2.trace
      = s.trace ++ [.log (.proxyAddress f.proxy), .log (.error e), .log (.error e), .exit 1] ∧
    listRequests [.log (.proxyAddress f.proxy), .log (.error e), .log (.error e), .exit 1]
      = [] ∧
    cloneAttempts [.log (.proxyAddress f.proxy), .log (.error e), .log (.error e), .exit 1]
      = [] ∧
    (execute W fuel f s).2.protocols = s.protocols ∧
    (execute W fuel f s).2.world = s.world ∧
    ∀ s0 : State σ, (cloneReposByOrg W fuel (newGithubClient W f.toOptions s).1.2 s0).2 = s0 := by
  have hnew : ∀ (options : Options) (s0 : State σ), options.proxy = f.proxy →
      newHttpClient W options s0 = ((none, some e), s0.emit (.log (.error e))) := by
    intro options s0 hp
    exact newHttpClient_parse_error W options s0 e (by rw [hp]; exact hne) (by rw [hp]; exact hbad)
  have hgh : ∀ (options : Options) (s0 : State σ), options.proxy = f.proxy →
      newGithubClient W options s0 = ((some e, options), s0.emit (.log (.error e))) := by
    intro options s0 hp
    simp [newGithubClient, hnew options s0 hp]
  have hex : execute W fuel f s = (.returned 1,
      (((s.emit (.log (.proxyAddress f.proxy))).emit (.log (.error e))).emit
        (.log (.error e))).emit (.exit 1)) := by
    have := hgh f.toOptions (s.emit (.log (.proxyAddress f.toOptions.proxy))) rfl
    simp only [execute, persistentPreRunE, this]
    rfl
  refine ⟨fun options s0 hp => ⟨hnew options s0 hp, hgh options s0 hp, ?_,
      cloneReposByOrg_bad_proxy W fuel options s0
        ⟨by rw [hp]; exact hne, e, by rw [hp]; exact hbad⟩⟩, ?_, ?_, ?_, ?_, ?_, ?_, ?_⟩
  · simp [setGitProxy, hnew options s0 hp]
  · rw [hex]
  · rw [hex]; simp [State.emit]
  · simp [listRequests, listCalls, Event.asListCall]
  · simp [cloneAttempts, Event.asClone]
  · rw [hex]; rfl
  · rw [hex]; rfl
  · intro s0
    rw [hgh f.toOptions s rfl]
    obtain ⟨e1, h1⟩ := cloneReposByOrg_no_client W fuel f.toOptions s0 rfl
    rw [h1]

/-- Claim C6, as the code has it. In every command run that ends with exit code 0,
`newHttpClient` is called twice.  The first call comes before every listing call
and its result `c1` is the client of the API client that every listing call goes
through.  The second call comes after the listing calls, of which there is at
least one, and before the clone phase, and its result `c2` is what is installed as
the clone transport for "https" and "http".  Without a proxy both results are nil
and no client is constructed; with a proxy they are two distinct client objects
(consecutive addresses) with the same proxy function. -/
theorem execute_builds_two_clients {σ : Type} (W : World σ) (fuel : Nat) (f : Flags)
    (s : State σ) (hrun : (execute W fuel f s).1 = .returned 0) :
    ∃ (c1 c2 : Option HttpClient) (evsL evsC : List Event),
      (execute W fuel f s).2.trace
        = s.trace ++ [.log (.proxyAddress f.proxy)] ++ c1.toList.map Event.newHttpClient ++
            evsL ++ c2.toList.map Event.newHttpClient ++
            [.installProtocol "https" { httpClient := c2 },
              .installProtocol "http" { httpClient := c2 }] ++ evsC ++
            [.log (.options { f.toOptions with gitClient := some { httpClient := c1 } }),
              .exit 0] ∧
      listCalls evsL ≠ [] ∧ (∀ g ∈ listClients evsL, g = { httpClient := c1 }) ∧
      constructions evsL = [] ∧ installs evsL = [] ∧ cloneAttempts evsL = [] ∧
      listCalls evsC = [] ∧ constructions evsC = [] ∧ installs evsC = [] ∧
      (f.proxy = "" → c1 = none ∧ c2 = none) ∧
      (f.proxy ≠ "" → ∃ u, W.urlParse f.proxy = .ok u ∧
        c1 = some { addr := s.heap, Transport := { Proxy := some (ProxyURL u) } } ∧
        c2 = some { addr := s.heap + 1, Transport := { Proxy := some (ProxyURL u) } }) := by
  -- the pre-run
  rcases hpre : newGithubClient W f.toOptions (s.emit (.log (.proxyAddress f.toOptions.proxy)))
    with ⟨⟨perr, options⟩, sA⟩
  have hex : execute W fuel f s =
      match ((perr, options), sA) with
      | ((some err, _), s1) => (.returned 1, (s1.emit (.log (.error err))).emit (.exit 1))
      | ((none, options), s1) =>
        match cloneReposByOrg W fuel options s1 with
        | (.panicked, s2) => (.panicked, s2)
        | (.outOfFuel, s2) => (.outOfFuel, s2)
        | (.returned (some err), s2) =>
          (.returned 1, (s2.emit (.log (.error err))).emit (.exit 1))
        | (.returned none, s2) => (.returned 0, s2.emit (.exit 0)) := by
    rw [execute, persistentPreRunE, hpre]
  cases perr with
  | some e => rw [hex] at hrun; simp at hrun
  | none =>
  obtain ⟨c1, hA1, _, _, hA4, hA5, hA6⟩ := newGithubClient_ok W f.toOptions
    (s.emit (.log (.proxyAddress f.toOptions.proxy))) (by rw [hpre])
  rw [hpre] at hA1 hA4 hA5 hA6
  simp only [] at hA1 hA4 hA5 hA6 hex
  subst hA1
  -- the clone command returned nil
  rcases hcr : cloneReposByOrg W fuel
    { f.toOptions with gitClient := some { httpClient := c1 } } sA with ⟨out, s2⟩
  rw [hcr] at hex
  have hout : out = .returned none := by
    cases out with
    | panicked => rw [hex] at hrun; simp at hrun
    | outOfFuel => rw [hex] at hrun; simp at hrun
    | returned oe =>
      cases oe with
      | none => rfl
      | some e => rw [hex] at hrun; simp at hrun
  subst hout
  simp only [] at hex
  obtain ⟨horg, hpf, repos, s1, hl⟩ := cloneReposByOrg_returned_nil W fuel
    { f.toOptions with gitClient := some { httpClient := c1 } } sA (by rw [hcr])
  obtain ⟨hL1, _, evsL, hL3, hL4, hL5, hL6, hL7⟩ := listReposByOrg_frame W fuel
    { f.toOptions with gitClient := some { httpClient := c1 } } sA
  have hLcalls := listReposByOrg_returned_calls W fuel
    { f.toOptions with gitClient := some { httpClient := c1 } } sA (repos, none) evsL
    (by rw [hl]) hL3
  rw [hl] at hL1 hL3
  simp only [] at hL1 hL3
  obtain ⟨c2, evsC, tail, hC1, hC2, hC3, _, hC5, hC6, hC7, _, hC9⟩ :=
    cloneReposByOrg_clone_phase W fuel
      { f.toOptions with gitClient := some { httpClient := c1 } } sA s1 repos horg hl hpf
  have htail : tail
      = [.log (.options { f.toOptions with gitClient := some { httpClient := c1 } })] := by
    rcases hC9 with ⟨_, ht⟩ | ⟨hp, _, _⟩
    · exact ht
    · rw [hcr] at hp; simp at hp
  rw [hcr] at hC1
  simp only [] at hC1
  refine ⟨c1, c2, evsL, evsC, ?_, hLcalls, ?_, hL6, hL5, hL4, hC5, hC7, hC6, ?_, ?_⟩
  · rw [hex]
    simp only [State.emit, hC1, hL3, hA4, htail]
    simp [Flags.toOptions]
  · intro g hg
    have := hL7 g hg
    simpa using this
  · intro hp
    exact ⟨(hA5 hp).1, hC2 hp⟩
  · intro hne
    obtain ⟨u, hu, hc1, hheap⟩ := hA6 hne
    obtain ⟨u2, hu2, hc2⟩ := hC3 hne
    have huu : u2 = u := by
      have : (Except.ok u2 : Except Error URL) = .ok u := by rw [← hu2]; exact hu
      simpa using this
    refine ⟨u, hu, by simpa [State.emit] using hc1, ?_⟩
    rw [hc2, huu, hL1, hheap]
    rfl

/-! ## The statements at concrete inputs -/

theorem calmWorld_serves_acme (c : GithubClient) :
    ServesPages calmWorld c "acme" acmePages := by
  intro w i hi p hp
  have hi2 : i < 2 := hi
  interval_cases i
  · rcases hp with hp | ⟨_, hp⟩ <;> subst hp <;> rfl
  · rcases hp with hp | ⟨h0, _⟩
    · subst hp; rfl
    · exact absurd h0 (by decide)

theorem calmWorld_fails_flaky (c : GithubClient) :
    ServesThenFails calmWorld c "flaky" [[repoA]] "502 Bad Gateway" := by
  refine ⟨?_, ?_⟩
  · intro w i hi p hp
    have hi1 : i < 1 := hi
    interval_cases i
    rcases hp with hp | ⟨_, hp⟩ <;> subst hp <;> rfl
  · intro w p hp
    rcases hp with hp | ⟨h0, _⟩
    · subst hp; rfl
    · exact absurd h0 (by decide)

/-- C1 at the two pages of "acme": the three records, after two requests. -/
theorem listReposByOrg_all_pages_witness :
    ServesPages calmWorld { httpClient := none } "acme" acmePages ∧
    (listReposByOrg calmWorld 2 demoOptions demoState).1
      = .returned ([repoA, repoB, repoC], none) ∧
    listRequests (listReposByOrg calmWorld 2 demoOptions demoState).2.trace
      = [opsAt 0, opsAt 2] :=
  ⟨calmWorld_serves_acme _,
    (listReposByOrg_all_pages calmWorld 2 demoOptions demoState { httpClient := none }
      acmePages rfl (by decide) (calmWorld_serves_acme _) (by decide)).1,
    by decide⟩

/-- C2 at "flaky", whose second page fails: the first page comes back with the error. -/
theorem listReposByOrg_fails_on_page_witness :
    ServesThenFails calmWorld { httpClient := none } "flaky" [[repoA]] "502 Bad Gateway" ∧
    (listReposByOrg calmWorld 2 flakyOptions demoState).1
      = .returned ([repoA], some "502 Bad Gateway") :=
  ⟨calmWorld_fails_flaky _,
    (listReposByOrg_fails_on_page calmWorld 2 flakyOptions demoState { httpClient := none }
      [[repoA]] "502 Bad Gateway" rfl (calmWorld_fails_flaky _) (by decide)).1⟩

/-- C7 as stated fails: the first request of a run carries page number 0, not 1. -/
theorem first_request_is_page_zero :
    (listRequests (listReposByOrg calmWorld 5 demoOptions demoState).2.trace).map
        (fun ops => ops.ListOptions.Page) = [0, 2] ∧
    ¬ (((listRequests (listReposByOrg calmWorld 5 demoOptions demoState).2.trace).head?).map
        (fun ops => ops.ListOptions.Page) = some 1) := by
  decide

/-- C3 as stated fails.  With a client set and a proxy string that does not parse,
the listing returns three records, yet no clone is attempted and an error is
returned.  And with a listed record that carries no name, the run stops at that
record (a nil pointer) after one attempt of three. -/
theorem listed_repositories_left_uncloned :
    (listReposByOrg calmWorld 5 badProxyOptions demoState).1
      = .returned ([repoA, repoB, repoC], none) ∧
    cloneAttempts (cloneReposByOrg calmWorld 5 badProxyOptions demoState).2.trace = [] ∧
    (cloneReposByOrg calmWorld 5 badProxyOptions demoState).1 ≠ .returned none ∧
    (listReposByOrg calmWorld 5 ghostOptions demoState).1
      = .returned ([repoA, repoNameless, repoC], none) ∧
    (cloneAttempts (cloneReposByOrg calmWorld 5 ghostOptions demoState).2.trace).length = 1 ∧
    (cloneReposByOrg calmWorld 5 ghostOptions demoState).1 = .panicked := by
  decide

/-- C3, amended, where the first and the third clone attempt fail: all three are
made. -/
theorem cloneReposByOrg_attempts_every_repository_witness :
    demoOptions.org ≠ "" ∧ ¬ proxyFails roughWorld demoOptions ∧
    (∀ r ∈ [repoA, repoB, repoC], r.populated = true) ∧
    (listReposByOrg roughWorld 5 demoOptions demoState).1
      = .returned ([repoA, repoB, repoC], none) ∧
    (cloneReposByOrg roughWorld 5 demoOptions demoState).1 = .returned none ∧
    cloneResults (cloneReposByOrg roughWorld 5 demoOptions demoState).2.trace
      = [some "clone failed", none, some "clone failed"] :=
  ⟨by decide, fun h => h.1 rfl, by decide, by decide,
    (cloneReposByOrg_attempts_every_repository roughWorld 5 demoOptions demoState
      (listReposByOrg roughWorld 5 demoOptions demoState).2 [repoA, repoB, repoC]
      (by decide) (Prod.ext (by decide) rfl) (fun h => h.1 rfl) (by decide)).1,
    by decide⟩

/-- C4 as stated fails: with an organization, a client and a listing that
succeeds, `cloneReposByOrg` still returns an error, that of the proxy string. -/
theorem proxy_error_is_a_fourth_cause :
    (cloneReposByOrg calmWorld 5 badProxyOptions demoState).1
      = .returned (some "missing protocol scheme") ∧
    badProxyOptions.org ≠ "" ∧ badProxyOptions.gitClient ≠ none ∧
    (listReposByOrg calmWorld 5 badProxyOptions demoState).1
      = .returned ([repoA, repoB, repoC], none) := by
  decide

/-- C5 as stated fails.  On options with a client already set and a proxy string
that does not parse, `cloneReposByOrg` makes both listing requests before
`setGitProxy` returns the parse error. -/
theorem listing_precedes_proxy_error :
    badProxyOptions.proxy ≠ "" ∧
    calmWorld.urlParse badProxyOptions.proxy = .error "missing protocol scheme" ∧
    listRequests (cloneReposByOrg calmWorld 5 badProxyOptions demoState).2.trace
      = [opsAt 0, opsAt 2] ∧
    listRequests (cloneReposByOrg calmWorld 5 badProxyOptions demoState).2.trace ≠ [] :=
  ⟨by decide, by rfl, by decide, by decide⟩

/-- C5, amended, at the proxy string "://proxy": exit code 1 and nothing but log
lines. -/
theorem bad_proxy_aborts_witness :
    badProxyFlags.proxy ≠ "" ∧
    calmWorld.urlParse badProxyFlags.proxy = .error "missing protocol scheme" ∧
    (execute calmWorld 5 badProxyFlags demoState).1 = .returned 1 ∧
    (execute calmWorld 5 badProxyFlags demoState).2.trace
      = demoState.trace ++ [.log (.proxyAddress badProxyFlags.proxy),
          .log (.error "missing protocol scheme"), .log (.error "missing protocol scheme"),
          .exit 1] :=
  ⟨by decide, by rfl,
    (bad_proxy_aborts calmWorld 5 badProxyFlags demoState "missing protocol scheme"
      (by decide) (by rfl)).2.1,
    (bad_proxy_aborts calmWorld 5 badProxyFlags demoState "missing protocol scheme"
      (by decide) (by rfl)).2.2.1⟩

/-- C6 as stated fails: in this run two clients are constructed, the second after
the listing calls; the listing goes through the first, the clone transports hold
the second. -/
theorem client_is_constructed_twice :
    (execute calmWorld 5 proxyFlags demoState).1 = .returned 0 ∧
    constructions (execute calmWorld 5 proxyFlags demoState).2.trace
      = [{ addr := 0, Transport := proxyTransport }, { addr := 1, Transport := proxyTransport }] ∧
    ((execute calmWorld 5 proxyFlags demoState).2.trace[3]?).bind Event.asListClient
      = some { httpClient := some { addr := 0, Transport := proxyTransport } } ∧
    (execute calmWorld 5 proxyFlags demoState).2.trace[4]?
      = some (.newHttpClient { addr := 1, Transport := proxyTransport }) ∧
    listClients (execute calmWorld 5 proxyFlags demoState).2.trace
      = [{ httpClient := some { addr := 0, Transport := proxyTransport } },
          { httpClient := some { addr := 0, Transport := proxyTransport } }] ∧
    installs (execute calmWorld 5 proxyFlags demoState).2.trace
      = [("https", { httpClient := some { addr := 1, Transport := proxyTransport } }),
          ("http", { httpClient := some { addr := 1, Transport := proxyTransport } })] := by
  decide

/-- C6, amended, at the run through a proxy. -/
theorem execute_builds_two_clients_witness :
    (execute calmWorld 5 proxyFlags demoState).1 = .returned 0 ∧
    ∃ (c1 c2 : Option HttpClient) (evsL evsC : List Event),
      (execute calmWorld 5 proxyFlags demoState).2.trace
        = demoState.trace ++ [.log (.proxyAddress proxyFlags.proxy)] ++
            c1.toList.map Event.newHttpClient ++
            evsL ++ c2.toList.map Event.newHttpClient ++
            [.installProtocol "https" { httpClient := c2 },
              .installProtocol "http" { httpClient := c2 }] ++ evsC ++
            [.log (.options { proxyFlags.toOptions with gitClient := some { httpClient := c1 } }),
              .exit 0] ∧
      listCalls evsL ≠ [] ∧ (∀ g ∈ listClients evsL, g = { httpClient := c1 }) :=
  ⟨by decide,
    let ⟨c1, c2, evsL, evsC, h1, h2, h3, _⟩ :=
      execute_builds_two_clients calmWorld 5 proxyFlags demoState (by decide)
    ⟨c1, c2, evsL, evsC, h1, h2, h3⟩⟩

/-- C8 at "acme": the three clone attempts, each under "repos". -/
theorem cloneReposByOrg_clone_targets_witness :
    (listReposByOrg roughWorld 5 demoOptions demoState).1
      = .returned ([repoA, repoB, repoC], none) ∧
    ∃ evs : List Event,
      (cloneReposByOrg roughWorld 5 demoOptions demoState).2.trace = demoState.trace ++ evs ∧
      cloneAttempts evs <+: [repoA, repoB, repoC].map (cloneCall roughWorld demoOptions) :=
  ⟨by decide,
    let ⟨evs, h1, h2, _, _⟩ :=
      cloneReposByOrg_clone_targets roughWorld 5 demoOptions demoState
        (listReposByOrg roughWorld 5 demoOptions demoState).2 [repoA, repoB, repoC]
        (Prod.ext (by decide) rfl)
    ⟨evs, h1, h2⟩⟩

/-- C9 at the proxy "http://127.0.0.1:8080". -/
theorem valid_proxy_is_used_witness :
    proxyFlags.toOptions.proxy ≠ "" ∧
    calmWorld.urlParse proxyFlags.toOptions.proxy = .ok { raw := "http://127.0.0.1:8080" } ∧
    ∃ c : HttpClient, (newHttpClient calmWorld proxyFlags.toOptions demoState).1 = (some c, none) ∧
      c.proxiesThrough { raw := "http://127.0.0.1:8080" } :=
  ⟨by decide, by rfl,
    (valid_proxy_is_used calmWorld proxyFlags.toOptions demoState
      { raw := "http://127.0.0.1:8080" } (by decide) (by rfl)).1⟩

/-- C10 at options without an organization. -/
theorem cloneReposByOrg_no_org_witness :
    ({ demoOptions with org := "" } : Options).org = "" ∧
    cloneReposByOrg calmWorld 5 { demoOptions with org := "" } demoState
      = (.returned (some "must have one org"), demoState) :=
  ⟨rfl, (cloneReposByOrg_no_org calmWorld 5 { demoOptions with org := "" } demoState rfl).1⟩

end GithubTool
